import Mathlib

/-!
Verification of the variable-font instancer (`Lib/fontTools/varLib/instancer.py`).

The development shallowly embeds the instancer module.  Numeric values are
modelled as exact rationals; Python dictionaries are modelled as association
lists (unique keys, insertion order preserved); in-place mutation is modelled
by returning the updated structure; raised exceptions are modelled with
`Except`.  Helper functions that the module imports from elsewhere in the
repository (fontTools.varLib.models, fontTools.misc.fixedTools, ...) are not
under the sources being verified; they are modelled from the specification and
carry a doc comment saying so.
-/

set_option maxHeartbeats 1000000

namespace Instancer

/-- A tent `(lower, peak, upper)`: the triangular influence function of one
variation along one axis, in normalized coordinates. -/
abbrev Tent : Type := ℚ × ℚ × ℚ

/-- Dictionary lookup on an association list (Python `d.get(k)` / `d[k]`). -/
def alookup {κ : Type} [DecidableEq κ] {α : Type} (k : κ) : List (κ × α) → Option α
  | [] => none
  | p :: rest => if p.1 = k then some p.2 else alookup k rest

/-- Dictionary deletion (Python `d.pop(k)` / `del d[k]`); removes every entry
with the given key (a Python dict holds at most one). -/
def eraseKey {κ : Type} [DecidableEq κ] {α : Type} (k : κ) : List (κ × α) → List (κ × α)
  | [] => []
  | p :: rest => if p.1 = k then eraseKey k rest else p :: eraseKey k rest

/-- Dictionary assignment (Python `d[k] = v`): replaces the value of the first
entry with the given key, keeping its position, or appends a new entry. -/
def setKey {κ : Type} [DecidableEq κ] {α : Type} (k : κ) (v : α) : List (κ × α) → List (κ × α)
  | [] => [(k, v)]
  | p :: rest => if p.1 = k then (k, v) :: rest else p :: setKey k v rest

/-- Modelled from the spec: `MAX_F2DOT14` comes from fontTools.misc.fixedTools,
which is not under the verified sources.  The spec calls it "the max
2.14-representable value, ≈1.99994"; the largest value of a signed 2.14
fixed-point number is 32767/16384 = 1.99993896484375. -/
def MAX_F2DOT14 : ℚ := 32767 / 16384

/-- Modelled from the spec: `otRound` comes from fontTools.misc.fixedTools,
which is not under the verified sources.  Section 6 of the spec: "integer
rounding of scaled deltas uses banker's rounding to nearest, ties to even". -/
def otRound (v : ℚ) : ℤ :=
  let f := ⌊v⌋
  let r := v - (f : ℚ)
  if r < 1 / 2 then f
  else if 1 / 2 < r then f + 1
  else if 2 ∣ f then f else f + 1

/-- Modelled from the spec: `floatToFixedToFloat` comes from
fontTools.misc.fixedTools, which is not under the verified sources.  The spec
(section 3) says values "are quantized to a 2.14 fixed-point grid"; the model
rounds to the nearest multiple of `2 ^ (-precisionBits)`. -/
def floatToFixedToFloat (v : ℚ) (precisionBits : ℕ) : ℚ :=
  (otRound (v * 2 ^ precisionBits) : ℚ) / 2 ^ precisionBits

/-- Modelled from the spec: `supportScalar` comes from fontTools.varLib.models,
which is not under the verified sources.  Per-axis factor: per the glossary a
tent "contributes scalar support(c)"; per section 3 a tent with peak 0 (or a
malformed or zero-straddling tent) means the axis does not participate, so it
contributes factor 1; per section 4.C the support is 0 outside `[lower, upper]`,
1 at the peak, and linear in between. -/
def supportScalarAxis (v : ℚ) (t : Tent) : ℚ :=
  if t.2.1 = 0 then 1
  else if t.1 > t.2.1 ∨ t.2.1 > t.2.2 then 1
  else if t.1 < 0 ∧ 0 < t.2.2 then 1
  else if v = t.2.1 then 1
  else if v ≤ t.1 ∨ t.2.2 ≤ v then 0
  else if v < t.2.1 then (v - t.1) / (t.2.1 - t.1)
  else (v - t.2.2) / (t.2.1 - t.2.2)

/-- Modelled from the spec: `supportScalar(location, support)` from
fontTools.varLib.models.  Per the glossary, "influence at a location is the
product of per-axis supports"; an axis missing from the location is read as
coordinate 0. -/
def supportScalar (location : List (String × ℚ)) (support : List (String × Tent)) : ℚ :=
  support.foldl (fun scalar p => scalar * supportScalarAxis ((alookup p.1 location).getD 0) p.2) 1

/-- A tuple variation: a mapping `axis → tent` plus a delta payload
(`TupleVariation` from fontTools.ttLib.tables.TupleVariation, used here as a
record of its two fields). -/
structure TupleVariation where
  axes : List (String × Tent)
  coordinates : List ℚ
deriving DecidableEq, Repr

/-- Modelled from the spec: `TupleVariation.scaleDeltas` is defined outside the
verified sources; it multiplies the delta payload by a scalar ("multiply the
delta payload by s", section 4.C). -/
def scaleDeltas (var : TupleVariation) (scalar : ℚ) : TupleVariation :=
  { var with coordinates := var.coordinates.map (· * scalar) }

/-- Modelled from the spec: `TupleVariation.roundDeltas` is defined outside the
verified sources; it rounds each delta to an integer (sections 4.D and 6). -/
def roundDeltas (var : TupleVariation) : TupleVariation :=
  { var with coordinates := var.coordinates.map (fun c => (otRound c : ℚ)) }

/-- `_negate` helper (source line 220) applied to a bounds triple. -/
def negateTent (t : Tent) : Tent := (-t.1, -t.2.1, -t.2.2)

/-- `limitTupleVariationAxisRange` (source lines 224-308).  The `axisRange`
argument is a `NormalizedAxisRange` pair `(minimum, maximum)`; the isinstance
re-validation at lines 225-226 is a no-op for such inputs and is not modelled.
Returns the 0, 1 or 2 variations replacing `var`. -/
def limitTupleVariationAxisRange (var : TupleVariation) (axisTag : String)
    (axisRange : ℚ × ℚ) : List TupleVariation :=
  let t := (alookup axisTag var.axes).getD (-1, 0, 1)
  let lower := t.1
  let peak := t.2.1
  let upper := t.2.2
  -- skip when the axis does not participate, or the tent is malformed or
  -- straddles zero
  if peak = 0 ∨ lower > peak ∨ peak > upper ∨ (lower < 0 ∧ 0 < upper) then [var]
  else
    let negative := lower < 0
    if negative then
      if axisRange.1 = -1 then [var]
      else if axisRange.1 = 0 then []
      else
        limitCore var axisTag axisRange.1 lower peak upper true
    else
      if axisRange.2 = 1 then [var]
      else if axisRange.2 = 0 then []
      else
        limitCore var axisTag axisRange.2 lower peak upper false
where
  /-- Lines 246-308: the shared rebase-and-case-split once the early returns
  are passed; `limit` is `axisRange.minimum` for a negative tent and
  `axisRange.maximum` for a positive one. -/
  limitCore (var : TupleVariation) (axisTag : String) (limit lower peak upper : ℚ)
      (negative : Bool) : List TupleVariation :=
    let newLower' := lower / limit
    let newPeak := peak / limit
    let newUpper' := upper / limit
    -- for negative TupleVariation, swap lower and upper
    let newLower := if negative then newUpper' else newLower'
    let newUpper := if negative then newLower' else newUpper'
    -- special case when innermost bound == peak == limit
    if newLower = 1 ∧ newPeak = 1 then
      [{ var with axes := setKey axisTag (if negative then (-1, -1, -1) else (1, 1, 1)) var.axes }]
    -- case 1: the whole deltaset falls outside the new limit
    else if newLower ≥ 1 then []
    -- case 2: peak and outermost bound fall outside the new limit
    else if newPeak ≥ 1 then
      let scalar := supportScalar [(axisTag, limit)] [(axisTag, (lower, peak, upper))]
      let var := scaleDeltas var scalar
      let bounds := if negative then negateTent (1, 1, newLower) else (newLower, 1, 1)
      [{ var with axes := setKey axisTag bounds var.axes }]
    -- case 3: peak inside, outermost bound fits within F2Dot14
    else if newUpper ≤ 2 then
      let bounds :=
        if negative then negateTent (newUpper, newPeak, newLower)
        else (newLower, newPeak, if MAX_F2DOT14 < newUpper then MAX_F2DOT14 else newUpper)
      [{ var with axes := setKey axisTag bounds var.axes }]
    -- case 4: chop the tent into two
    else
      let varBounds := if negative then (-2, -newPeak, -newLower)
        else (newLower, newPeak, MAX_F2DOT14)
      let newVarBounds := if negative then (-1, -1, -newPeak) else (newPeak, 1, 1)
      let scalar1 := supportScalar [(axisTag, limit)] [(axisTag, (lower, peak, upper))]
      let scalar2 := 1 / (2 - newPeak)
      [{ var with axes := setKey axisTag varBounds var.axes },
       scaleDeltas { var with axes := setKey axisTag newVarBounds var.axes } (scalar1 - scalar2)]

/-- An axis limit: either a pinned coordinate (Python `float`) or a
`(minimum, maximum)` range (`AxisRange` / `NormalizedAxisRange`). -/
inductive AxisLimit where
  | pin (value : ℚ)
  | range (minimum maximum : ℚ)
deriving DecidableEq, Repr

/-- `AxisLimit.isPin` distinguishes the two shapes (Python
`not isinstance(value, tuple)`). -/
def AxisLimit.isPin : AxisLimit → Bool
  | .pin _ => true
  | .range _ _ => false

/-- `splitAxisLocationAndRanges` (source lines 1245-1259), for call sites whose
range values were already validated (`NormalizedAxisRange` instances built by
`normalizeAxisLimits`), where the isinstance branch re-raises nothing. -/
def splitAxisLocationAndRanges (axisLimits : List (String × AxisLimit)) :
    List (String × ℚ) × List (String × (ℚ × ℚ)) :=
  (axisLimits.filterMap (fun p => match p.2 with
      | .pin v => some (p.1, v)
      | .range _ _ => none),
   axisLimits.filterMap (fun p => match p.2 with
      | .pin _ => none
      | .range lo hi => some (p.1, (lo, hi))))

/-- `pinTupleVariationAxes` (source lines 193-208): for each variation compute
the scalar support of the pinned axes (a missing axis reads as `(-1, 0, +1)`),
drop the variation when the scalar is 0, otherwise scale its deltas and remove
the pinned axes from its tent mapping. -/
def pinTupleVariationAxes (variations : List TupleVariation) (location : List (String × ℚ)) :
    List TupleVariation :=
  variations.filterMap (fun var =>
    let support := location.map (fun al => (al.1, (alookup al.1 var.axes).getD (-1, 0, 1)))
    let axes := location.foldl (fun axs al => eraseKey al.1 axs) var.axes
    let scalar := supportScalar location support
    if scalar = 0 then none
    else some (scaleDeltas { var with axes := axes } scalar))

/-- Character-list comparison by code point, used to model Python's sorting of
axis tags in `sorted(axisRanges.items())`. -/
def charListLe : List Char → List Char → Bool
  | [], _ => true
  | _ :: _, [] => false
  | a :: as, b :: bs =>
    if a.toNat < b.toNat then true
    else if b.toNat < a.toNat then false
    else charListLe as bs

/-- Insertion step for sorting an association list by its string keys. -/
def insertByTag {α : Type} (p : String × α) : List (String × α) → List (String × α)
  | [] => [p]
  | q :: rest => if charListLe p.1.data q.1.data then p :: q :: rest else q :: insertByTag p rest

/-- Sort an association list by its string keys, modelling Python
`sorted(d.items())` for a dict with (unique) string keys. -/
def sortByTag {α : Type} (l : List (String × α)) : List (String × α) :=
  l.foldr insertByTag []

/-- `limitTupleVariationAxisRanges` (source lines 211-217): apply the one-axis
range limit over every restricted axis in sorted tag order, fanning each
variation out into its 0, 1 or 2 replacements. -/
def limitTupleVariationAxisRanges (variations : List TupleVariation)
    (axisRanges : List (String × (ℚ × ℚ))) : List TupleVariation :=
  (sortByTag axisRanges).foldl
    (fun vars ar => (vars.map (fun var => limitTupleVariationAxisRange var ar.1 ar.2)).flatten)
    variations

/-- Equality of two tent mappings as Python `frozenset(axes.items())` equality:
the two association lists hold the same set of `(axis, tent)` items. -/
def axesItemsEq (a b : List (String × Tent)) : Bool :=
  a.all (fun p => decide (p ∈ b)) && b.all (fun p => decide (p ∈ a))

/-- One step of the `mergedVariations` OrderedDict loop (source lines 176-180):
`mergedVariations[axes] += var` when the key is present (summing delta
vectors), otherwise insert the variation at the end. -/
def addToMerged (acc : List TupleVariation) (var : TupleVariation) : List TupleVariation :=
  if acc.any (fun w => axesItemsEq w.axes var.axes) then
    acc.map (fun w =>
      if axesItemsEq w.axes var.axes then
        { w with coordinates := List.zipWith (· + ·) w.coordinates var.coordinates }
      else w)
  else acc ++ [var]

/-- The OrderedDict merge of variations with identical tent mappings
(source lines 169-180); the `origCoords is None` path is modelled, where
`calcInferredDeltas` is not invoked. -/
def mergeVariations (vars : List TupleVariation) : List TupleVariation :=
  vars.foldl addToMerged []

/-- Result of `instantiateTupleVariationStore`: the in-place updated variation
list and the returned default-delta residue. -/
structure StoreResult where
  variations : List TupleVariation
  defaultDeltas : List ℚ
deriving DecidableEq, Repr

/-- `instantiateTupleVariationStore` (source lines 124-190), on the
`origCoords=None` path (cvar and the item-store adapter): pin, range-limit,
merge coincident tents, pop the all-axes-pinned variation as the default-delta
residue, and round the remaining deltas.  The merged dict holds pairwise
distinct keys, so popping the empty key is the same as filtering out the
(unique, if any) entry with an empty tent mapping. -/
def instantiateTupleVariationStore (variations : List TupleVariation)
    (axisLimits : List (String × AxisLimit)) : StoreResult :=
  let split := splitAxisLocationAndRanges axisLimits
  let pinnedLocation := split.1
  let axisRanges := split.2
  let newVariations :=
    if pinnedLocation.isEmpty then variations
    else pinTupleVariationAxes variations pinnedLocation
  let newVariations :=
    if axisRanges.isEmpty then newVariations
    else limitTupleVariationAxisRanges newVariations axisRanges
  let merged := mergeVariations newVariations
  let defaultVar := merged.find? (fun v => v.axes.isEmpty)
  { variations := (merged.filter (fun v => ¬ v.axes.isEmpty)).map roundDeltas
    defaultDeltas := (defaultVar.map (·.coordinates)).getD [] }

/-- Python `zip(*rows)` on a list of rows: the list of columns, truncated to
the shortest row; `zip()` of no rows is empty. -/
def pyZip (rows : List (List ℚ)) : List (List ℚ) :=
  match rows with
  | [] => []
  | r0 :: rest =>
    let n := rest.foldl (fun m r => min m r.length) r0.length
    (List.range n).map (fun i => rows.map (fun r => r.getD i 0))

/-- One `VarData` subtable of an item variation store, as used by the adapter:
an item count, the region indices, and the row-major delta matrix
(`builder.buildVarData` with `optimize=False` sets `ItemCount` to the number
of rows; modelled from the spec, section 4.E, as the builder is not under the
verified sources). -/
structure VarData where
  itemCount : ℕ
  varRegionIndices : List ℕ
  item : List (List ℚ)
deriving DecidableEq, Repr

/-- An item variation store, with its regions already in axis-to-tent mapping
form (the spec, section 3: "a region list (each region is a mapping
axis → tent)"; `VarRegion.get_support` which produces that form is not under
the verified sources). -/
structure ItemVarStore where
  varRegionList : List (List (String × Tent))
  varData : List VarData
deriving DecidableEq, Repr

/-- The `_TupleVarStoreAdapter` record (source lines 481-486). -/
structure TupleVarStoreAdapter where
  regions : List (List (String × Tent))
  axisOrder : List String
  tupleVarData : List (List TupleVariation)
  itemCounts : List ℕ
deriving DecidableEq, Repr

/-- `_TupleVarStoreAdapter.fromItemVarStore` (source lines 488-503): expand
each subtable's row-major delta matrix into one tuple variation per referenced
region, pairing each region with the corresponding delta column. -/
def fromItemVarStore (itemVarStore : ItemVarStore) (axisOrder : List String) :
    TupleVarStoreAdapter :=
  { regions := itemVarStore.varRegionList
    axisOrder := axisOrder
    tupleVarData := itemVarStore.varData.map (fun varData =>
      let varDataRegions := varData.varRegionIndices.map
        (fun i => (itemVarStore.varRegionList.getD i []))
      (varDataRegions.zip (pyZip varData.item)).map
        (fun rc => { axes := rc.1, coordinates := rc.2 }))
    itemCounts := itemVarStore.varData.map (·.itemCount) }

/-- `_TupleVarStoreAdapter.rebuildRegions` (source lines 505-525): keep the
original order for regions still used by some variation, then append the newly
appearing regions in first-occurrence order. -/
def rebuildRegions (adapter : TupleVarStoreAdapter) : TupleVarStoreAdapter :=
  let uniqueRegions := adapter.tupleVarData.foldl
    (fun acc vars => vars.foldl
      (fun acc2 var =>
        if acc2.any (fun k => axesItemsEq k var.axes) then acc2 else acc2 ++ [var.axes])
      acc) []
  let step := adapter.regions.foldl
    (fun (st : List (List (String × Tent)) × List (List (String × Tent))) region =>
      if st.2.any (fun k => axesItemsEq k region) then
        (st.1 ++ [region], st.2.filter (fun k => ¬ axesItemsEq k region))
      else st)
    ([], uniqueRegions)
  { adapter with regions := step.1 ++ step.2 }

/-- `_TupleVarStoreAdapter.instantiate` (source lines 527-547): run the tuple
store transformer on each subtable, synthesizing a zero residue vector of the
subtable's item count when none is returned; rebuild the regions; drop pinned
axes from the axis order.  Returns the updated adapter and the default-delta
array. -/
def adapterInstantiate (adapter : TupleVarStoreAdapter)
    (axisLimits : List (String × AxisLimit)) :
    TupleVarStoreAdapter × List (List ℚ) :=
  let results := (adapter.tupleVarData.zip adapter.itemCounts).map (fun p =>
    let r := instantiateTupleVariationStore p.1 axisLimits
    (r.variations, if r.defaultDeltas.isEmpty then List.replicate p.2 0 else r.defaultDeltas))
  let adapter1 := { adapter with tupleVarData := results.map (·.1) }
  let adapter2 := rebuildRegions adapter1
  let pinnedAxes := (splitAxisLocationAndRanges axisLimits).1.map Prod.fst
  let adapter3 := { adapter2 with
    axisOrder := adapter2.axisOrder.filter (fun tag => ¬ pinnedAxes.contains tag) }
  (adapter3, results.map (·.2))

/-- `VarStore.prune_regions` is not under the verified sources; modelled from
the spec (section 4.E): "Prune regions no longer referenced", remapping the
region indices onto the kept regions. -/
def pruneRegions (store : ItemVarStore) : ItemVarStore :=
  let used := store.varData.foldl (fun acc vd => acc ++ vd.varRegionIndices) []
  let keep := (List.range store.varRegionList.length).filter (fun i => used.contains i)
  { varRegionList := keep.filterMap (fun i => store.varRegionList.get? i)
    varData := store.varData.map (fun vd =>
      { vd with varRegionIndices := vd.varRegionIndices.map (fun i => keep.indexOf i) }) }

/-- `_TupleVarStoreAdapter.asItemVarStore` (source lines 549-570): rebuild each
subtable from its surviving variations (region indices recomputed against the
rebuilt region list, delta rows re-packed row-major), or as an empty subtable
with the original item count when no variations survive; then prune unused
regions. -/
def asItemVarStore (adapter : TupleVarStoreAdapter) : ItemVarStore :=
  let regionOrder := adapter.regions
  let varDatas := (adapter.tupleVarData.zip adapter.itemCounts).map (fun p =>
    match p.1 with
    | [] => { itemCount := p.2, varRegionIndices := [], item := List.replicate p.2 [] }
    | vars =>
      let varRegionIndices := vars.map
        (fun var => regionOrder.findIdx (fun r => axesItemsEq r var.axes))
      let varDataItems := pyZip (vars.map (·.coordinates))
      { itemCount := varDataItems.length
        varRegionIndices := varRegionIndices
        item := varDataItems })
  pruneRegions { varRegionList := adapter.regions, varData := varDatas }

/-- `instantiateItemVariationStore` (source lines 573-606): convert to the
tuple-variation view, transform, convert back (replacing the store's region
list and subtables in place), and return the default deltas keyed by
VariationIndex compound value `(major << 16) + minor`. -/
def instantiateItemVariationStore (itemVarStore : ItemVarStore) (axisOrder : List String)
    (axisLimits : List (String × AxisLimit)) : ItemVarStore × List (ℕ × ℚ) :=
  let tupleVarStore := fromItemVarStore itemVarStore axisOrder
  let instd := adapterInstantiate tupleVarStore axisLimits
  let defaultDeltaArray := instd.2
  let newItemVarStore := asItemVarStore instd.1
  let defaultDeltas := (defaultDeltaArray.enum.map (fun p =>
    (p.2.enum.map (fun q => (p.1 * 65536 + q.1, q.2))))).flatten
  (newItemVarStore, defaultDeltas)

/-- A raised Python exception, by kind. -/
inductive PyError where
  | valueError (msg : String)
  | keyError (key : String)
  | notImplementedError (msg : String)
deriving DecidableEq, Repr

/-- Whether an error is a `ValueError`. -/
def PyError.isValueError : PyError → Bool
  | .valueError _ => true
  | _ => false

/-- One axis record of the `fvar` table (tag, user-space triple, name ID). -/
structure FvarAxis where
  axisTag : String
  minValue : ℚ
  defaultValue : ℚ
  maxValue : ℚ
  axisNameID : ℕ
deriving DecidableEq, Repr

/-- Modelled from the spec: `normalizeValue` comes from fontTools.varLib.models,
not under the verified sources.  Section 4.B: `norm(v) = (v - default) /
(default - min)` if `v < default` else `(v - default) / (max - default)` (0
when the denominator is zero), clamped to [-1, +1]. -/
def normalizeValue (v : ℚ) (triple : ℚ × ℚ × ℚ) : ℚ :=
  let lo := triple.1
  let d := triple.2.1
  let hi := triple.2.2
  let n :=
    if v < d then (if d - lo = 0 then 0 else (v - d) / (d - lo))
    else (if hi - d = 0 then 0 else (v - d) / (hi - d))
  max (-1) (min 1 n)

/-- Modelled from the spec: `piecewiseLinearMap` comes from
fontTools.varLib.models, not under the verified sources.  It evaluates the
piecewise-linear axis mapping (sections 1, 4.B): exact anchors map to their
images, values between two anchors interpolate linearly, values beyond the
outermost anchors translate by that anchor's offset, and an empty mapping is
the identity. -/
def piecewiseLinearMap (v : ℚ) (mapping : List (ℚ × ℚ)) : ℚ :=
  match alookup v mapping with
  | some t => t
  | none =>
    match mapping.map Prod.fst with
    | [] => v
    | k0 :: krest =>
      let kmin := krest.foldl min k0
      let kmax := krest.foldl max k0
      if v < kmin then v + (alookup kmin mapping).getD 0 - kmin
      else if v > kmax then v + (alookup kmax mapping).getD 0 - kmax
      else
        let below := (k0 :: krest).filter (fun k => k < v)
        let above := (k0 :: krest).filter (fun k => k > v)
        let a := (below.tail).foldl max (below.headD kmin)
        let b := (above.tail).foldl min (above.headD kmax)
        let va := (alookup a mapping).getD 0
        let vb := (alookup b mapping).getD 0
        va + (vb - va) * (v - a) / (b - a)

/-- `normalize` (source lines 1101-1106): default normalization, optional avar
remap, then 2.14 quantization. -/
def normalize (value : ℚ) (triple : ℚ × ℚ × ℚ) (avarMapping : Option (List (ℚ × ℚ))) : ℚ :=
  let v := normalizeValue value triple
  let v := match avarMapping with
    | some mapping => piecewiseLinearMap v mapping
    | none => v
  floatToFixedToFloat v 14

/-- The validations run by the `AxisRange` and `NormalizedAxisRange`
constructors (source lines 99-121), as performed when `normalizeAxisLimits`
builds a `NormalizedAxisRange` from two normalized values. -/
def mkNormalizedAxisRange (lo hi : ℚ) : Except PyError (ℚ × ℚ) :=
  if lo > hi then
    .error (.valueError "Range minimum must be <= maximum")
  else if lo < -1 ∨ hi > 1 then
    .error (.valueError "Axis range values must be normalized to -1..+1 range")
  else if lo > 0 then
    .error (.valueError "Expected axis range minimum <= 0")
  else if hi < 0 then
    .error (.valueError "Expected axis range maximum >= 0")
  else .ok (lo, hi)

/-- `normalizeAxisLimits` (source lines 1109-1134): reject axis tags absent
from fvar, then normalize each limited axis (in fvar order) through its triple
and, when enabled and present, its avar mapping. -/
def normalizeAxisLimits (fvarAxes : List FvarAxis)
    (avarSegments : Option (List (String × List (ℚ × ℚ))))
    (axisLimits : List (String × AxisLimit)) (usingAvar : Bool) :
    Except PyError (List (String × AxisLimit)) :=
  let fvarTags := fvarAxes.map (·.axisTag)
  let badLimits := (axisLimits.map Prod.fst).filter (fun tag => ¬ fvarTags.contains tag)
  if ¬ badLimits.isEmpty then
    .error (.valueError ("Cannot limit: " ++ String.intercalate " " badLimits
      ++ " not present in fvar"))
  else
    let axes := fvarAxes.filter (fun a => (axisLimits.map Prod.fst).contains a.axisTag)
    axes.mapM (fun a =>
      let triple := (a.minValue, a.defaultValue, a.maxValue)
      let avarMapping :=
        if usingAvar then alookup a.axisTag (avarSegments.getD []) else none
      match alookup a.axisTag axisLimits with
      | some (.pin v) => .ok (a.axisTag, AxisLimit.pin (normalize v triple avarMapping))
      | some (.range lo hi) =>
        (mkNormalizedAxisRange (normalize lo triple avarMapping)
            (normalize hi triple avarMapping)).map
          (fun r => (a.axisTag, AxisLimit.range r.1 r.2))
      | none => .error (.keyError a.axisTag))

/-- `_isValidAvarSegmentMap` (source lines 851-870), returning the verdict and
the warnings logged; the monotonicity pass walks the items sorted by key. -/
def isValidAvarSegmentMap (axisTag : String) (segmentMap : List (ℚ × ℚ)) :
    Bool × List String :=
  if segmentMap.isEmpty then (true, [])
  else if ¬ ([((-1 : ℚ), (-1 : ℚ)), (0, 0), (1, 1)].all (fun p => decide (p ∈ segmentMap))) then
    (false, ["Invalid avar SegmentMap record for axis " ++ axisTag
      ++ ": does not include all required value maps"])
  else
    -- sort items by fromCoordinate (keys are unique in a dict)
    let sortedPairs := segmentMap.foldr insertByCoord []
    if nonDecreasing (sortedPairs.map Prod.snd) then (true, [])
    else (false, ["Invalid avar AxisValueMap record for axis " ++ axisTag
      ++ ": the toCoordinate value must be >= to the toCoordinate value of the preceding record"])
where
  /-- Insertion sort step on the fromCoordinate. -/
  insertByCoord (p : ℚ × ℚ) : List (ℚ × ℚ) → List (ℚ × ℚ)
    | [] => [p]
    | q :: rest => if p.1 ≤ q.1 then p :: q :: rest else q :: insertByCoord p rest
  /-- The `previousValue > toCoord` scan: the sorted toCoordinates never
  decrease. -/
  nonDecreasing : List ℚ → Bool
    | [] => true
    | [_] => true
    | a :: b :: rest => a ≤ b && nonDecreasing (b :: rest)

/-- `splitAxisLocationAndRanges` as invoked on user-space limits (rangeType
`AxisRange`): tuple values go through the `AxisRange` constructor, whose
`minimum > maximum` validation can raise (source lines 99-106, 1252-1253). -/
def splitAxisLocationAndRangesChecked (axisLimits : List (String × AxisLimit)) :
    Except PyError (List (String × ℚ) × List (String × (ℚ × ℚ))) :=
  axisLimits.foldlM (fun acc p =>
    match p.2 with
    | .pin v => .ok (acc.1 ++ [(p.1, v)], acc.2)
    | .range lo hi =>
      if lo > hi then .error (.valueError "Range minimum must be <= maximum")
      else .ok (acc.1, acc.2 ++ [(p.1, (lo, hi))]))
    ([], [])

/-- `instantiateAvar` (source lines 873-938), acting on the avar segments of
the font.  Takes the fvar axes (used by the inner `normalizeAxisLimits` call
with `usingAvar=False`) and the user-space axis limits; returns `none` when
the avar table is dropped, otherwise the new segments, along with the warnings
logged by segment-map validation. -/
def instantiateAvar (fvarAxes : List FvarAxis)
    (avarSegments : List (String × List (ℚ × ℚ)))
    (axisLimits : List (String × AxisLimit)) :
    Except PyError (Option (List (String × List (ℚ × ℚ))) × List String) := do
  let split ← splitAxisLocationAndRangesChecked axisLimits
  let location := split.1
  let axisRanges := split.2
  let pinnedAxes := location.map Prod.fst
  -- drop table if we instantiate all the axes
  if avarSegments.all (fun seg => pinnedAxes.contains seg.1) then
    return (none, [])
  let segments := avarSegments.filter (fun seg => ¬ pinnedAxes.contains seg.1)
  let nl ← normalizeAxisLimits fvarAxes none
    (axisRanges.map (fun p => (p.1, AxisLimit.range p.2.1 p.2.2))) false
  let normalizedRanges := nl.filterMap (fun p =>
    match p.2 with
    | .range lo hi => some (p.1, (lo, hi))
    | .pin _ => none)
  let result := segments.foldl (avarStep normalizedRanges) ([], [])
  return (some result.1, result.2)
where
  /-- The body of the `for axisTag, mapping in segments.items()` loop (source
  lines 900-937), accumulating the new segments and the warnings. -/
  avarStep (normalizedRanges : List (String × (ℚ × ℚ)))
      (acc : List (String × List (ℚ × ℚ)) × List String)
      (seg : String × List (ℚ × ℚ)) :
      List (String × List (ℚ × ℚ)) × List String :=
    let verdict := isValidAvarSegmentMap seg.1 seg.2
    if ¬ verdict.1 then (acc.1, acc.2 ++ verdict.2)
    else
      match alookup seg.1 normalizedRanges with
      | some axisRange =>
        if seg.2.isEmpty then (acc.1 ++ [(seg.1, seg.2)], acc.2)
        else
          let mapping := seg.2
          let mappedMin := floatToFixedToFloat (piecewiseLinearMap axisRange.1 mapping) 14
          let mappedMax := floatToFixedToFloat (piecewiseLinearMap axisRange.2 mapping) 14
          let newMapping := mapping.foldl (fun nm kv =>
            if kv.1 < 0 ∧ (axisRange.1 = 0 ∨ kv.1 < axisRange.1) then nm
            else if kv.1 > 0 ∧ (axisRange.2 = 0 ∨ kv.1 > axisRange.2) then nm
            else
              let key := if kv.1 < 0 then kv.1 / |axisRange.1|
                else if kv.1 > 0 then kv.1 / axisRange.2
                else kv.1
              let value := if kv.2 < 0 then kv.2 / |mappedMin|
                else if kv.2 > 0 then kv.2 / mappedMax
                else kv.2
              setKey (floatToFixedToFloat key 14) (floatToFixedToFloat value 14) nm) []
          let newMapping := setKey (1 : ℚ) (1 : ℚ) (setKey (-1 : ℚ) (-1 : ℚ) newMapping)
          (acc.1 ++ [(seg.1, newMapping)], acc.2)
      | none => (acc.1 ++ [(seg.1, seg.2)], acc.2)

/-- A layout `ConditionTable` record (format, axis index, filter range). -/
structure ConditionTable where
  format : ℕ
  axisIndex : ℕ
  filterRangeMinValue : ℚ
  filterRangeMaxValue : ℚ
deriving DecidableEq, Repr

/-- A `FeatureVariationRecord`: a condition set, the substitution-table
version, and the substitution records as `(feature index, feature)` pairs
(feature table contents abstracted to identifiers). -/
structure FeatureVariationRecord where
  conditions : List ConditionTable
  version : ℕ
  substitutions : List (ℕ × ℕ)
deriving DecidableEq, Repr

/-- `_limitFeatureVariationConditionRange` (source lines 704-740): rescale a
format-1 condition onto the restricted axis range, or `none` when the
condition is invalid or out of range. -/
def limitFeatureVariationConditionRange (condition : ConditionTable)
    (axisRange : ℚ × ℚ) : Option (ℚ × ℚ) :=
  let minValue := condition.filterRangeMinValue
  let maxValue := condition.filterRangeMaxValue
  if minValue > maxValue ∨ minValue > axisRange.2 ∨ maxValue < axisRange.1 then none
  else
    let rescale := fun (value : ℚ) =>
      if value < 0 then
        if axisRange.1 = 0 then 0
        else
          let newValue := value / |axisRange.1|
          if newValue ≤ -1 then -1 else newValue
      else if value > 0 then
        if axisRange.2 = 0 then 0
        else
          let newValue := value / axisRange.2
          if newValue ≥ 1 then 1 else newValue
      else 0
    some (rescale minValue, rescale maxValue)

/-- Result of `_instantiateFeatureVariationRecord` on one record. -/
structure InstRecResult where
  applies : Bool
  shouldKeep : Bool
  record : FeatureVariationRecord
  warnings : List String
deriving Repr

/-- The condition loop of `_instantiateFeatureVariationRecord` (source lines
747-772): walk the condition set, dropping satisfied pinned conditions,
remapping unpinned ones, warning on unsupported formats; a failed pinned
condition clears `applies`, wipes the accumulated conditions (`none`) and
exits the loop. -/
def processConditions (location : List (String × ℚ)) (fvarTags : List String)
    (axisIndexMap : List (String × ℕ)) :
    List ConditionTable → Bool × Option (List ConditionTable) × List String
  | [] => (true, some [], [])
  | c :: rest =>
    if c.format = 1 then
      let axisTag := fvarTags.getD c.axisIndex ""
      match alookup axisTag location with
      | some v =>
        if c.filterRangeMinValue ≤ v ∧ v ≤ c.filterRangeMaxValue then
          processConditions location fvarTags axisIndexMap rest
        else (false, none, [])
      | none =>
        let c2 := { c with axisIndex := (alookup axisTag axisIndexMap).getD 0 }
        let r := processConditions location fvarTags axisIndexMap rest
        (false, r.2.1.map (c2 :: ·), r.2.2)
    else
      let r := processConditions location fvarTags axisIndexMap rest
      (false, r.2.1.map (c :: ·),
        ("Condition table of FeatureVariationRecord has unsupported format; ignored") :: r.2.2)

/-- `_instantiateFeatureVariationRecord` (source lines 743-780). -/
def instantiateFeatureVariationRecord (record : FeatureVariationRecord)
    (location : List (String × ℚ)) (fvarTags : List String)
    (axisIndexMap : List (String × ℕ)) : InstRecResult :=
  let r := processConditions location fvarTags axisIndexMap record.conditions
  match r.2.1 with
  | some (c :: cs) =>
    { applies := r.1, shouldKeep := true
      record := { record with conditions := c :: cs }, warnings := r.2.2 }
  | _ => { applies := r.1, shouldKeep := false, record := record, warnings := r.2.2 }

/-- The condition loop of `_limitFeatureVariationRecord` (source lines
785-804): conditions on ranged axes are rescaled (note the axis index is
resolved against the original fvar order, exactly as the source does); an
out-of-range condition wipes the set and exits. -/
def processLimitConditions (axisRanges : List (String × (ℚ × ℚ))) (fvarTags : List String) :
    List ConditionTable → Option (List ConditionTable)
  | [] => some []
  | c :: rest =>
    if c.format = 1 then
      let axisTag := fvarTags.getD c.axisIndex ""
      match alookup axisTag axisRanges with
      | some axisRange =>
        match limitFeatureVariationConditionRange c axisRange with
        | some newRange =>
          (processLimitConditions axisRanges fvarTags rest).map
            ({ c with filterRangeMinValue := newRange.1,
                      filterRangeMaxValue := newRange.2 } :: ·)
        | none => none
      | none => (processLimitConditions axisRanges fvarTags rest).map (c :: ·)
    else (processLimitConditions axisRanges fvarTags rest).map (c :: ·)

/-- `_limitFeatureVariationRecord` (source lines 783-812). -/
def limitFeatureVariationRecord (record : FeatureVariationRecord)
    (axisRanges : List (String × (ℚ × ℚ))) (fvarTags : List String) :
    Bool × FeatureVariationRecord :=
  match processLimitConditions axisRanges fvarTags record.conditions with
  | some (c :: cs) => (true, { record with conditions := c :: cs })
  | _ => (false, record)

/-- Whether two condition-set keys of `_featureVariationRecordIsUnique` are
equal, i.e. the Python frozensets hold the same members. -/
def condSetEq (a b : List (ℕ × ℚ × ℚ)) : Bool :=
  a.all (fun p => decide (p ∈ b)) && b.all (fun p => decide (p ∈ a))

/-- `_featureVariationRecordIsUnique` (source lines 682-701): records whose
every condition is format 1 are keyed by substitution version plus condition
set; the `seen` accumulator is returned updated (the Python side effect). -/
def featureVariationRecordIsUnique (rec : FeatureVariationRecord)
    (seen : List (ℕ × List (ℕ × ℚ × ℚ))) :
    Bool × List (ℕ × List (ℕ × ℚ × ℚ)) :=
  if rec.conditions.any (fun c => ¬ c.format = 1) then (true, seen)
  else
    let conditionSet := rec.conditions.map
      (fun c => (c.axisIndex, c.filterRangeMinValue, c.filterRangeMaxValue))
    if seen.any (fun k => k.1 = rec.version && condSetEq k.2 conditionSet) then (false, seen)
    else (true, seen ++ [(rec.version, conditionSet)])

/-- Apply a record's substitution records to the feature list (source lines
839-840): `FeatureRecord[rec.FeatureIndex].Feature = rec.Feature`. -/
def applySubstitutions (subs : List (ℕ × ℕ)) (featureList : List ℕ) : List ℕ :=
  subs.foldl (fun fl s => fl.set s.1 s.2) featureList

/-- The loop state of `_instantiateFeatureVariations` (source lines 823-842). -/
structure FVState where
  featureVariationApplied : Bool
  uniqueRecords : List (ℕ × List (ℕ × ℚ × ℚ))
  newRecords : List FeatureVariationRecord
  featureList : List ℕ
  warnings : List String
deriving Repr

/-- One iteration of the `_instantiateFeatureVariations` record loop. -/
def fvStep (location : List (String × ℚ)) (axisRanges : List (String × (ℚ × ℚ)))
    (fvarTags : List String) (axisIndexMap : List (String × ℕ))
    (st : FVState) (record : FeatureVariationRecord) : FVState :=
  let inst := instantiateFeatureVariationRecord record location fvarTags axisIndexMap
  let limited :=
    if inst.shouldKeep then limitFeatureVariationRecord inst.record axisRanges fvarTags
    else (false, inst.record)
  let shouldKeep := if inst.shouldKeep then limited.1 else false
  let record2 := limited.2
  let uniq :=
    if shouldKeep then featureVariationRecordIsUnique record2 st.uniqueRecords
    else (false, st.uniqueRecords)
  let newRecords := if shouldKeep ∧ uniq.1 then st.newRecords ++ [record2] else st.newRecords
  let appliedNow := inst.applies ∧ ¬ st.featureVariationApplied
  { featureVariationApplied := st.featureVariationApplied ∨ inst.applies
    uniqueRecords := uniq.2
    newRecords := newRecords
    featureList :=
      if appliedNow then applySubstitutions record.substitutions st.featureList
      else st.featureList
    warnings := st.warnings ++ inst.warnings }

/-- `_instantiateFeatureVariations` (source lines 815-848) on a layout table
with the given feature list and feature-variation records: returns the updated
feature list, the surviving records (`none` when the FeatureVariations
sub-table is deleted) and the logged warnings.  The
`FeatureTableSubstitution.Version` assertion at line 838 is not modelled. -/
def instantiateFeatureVariationsCore (featureList : List ℕ)
    (records : List FeatureVariationRecord) (fvarTags : List String)
    (axisLimits : List (String × AxisLimit)) :
    List ℕ × Option (List FeatureVariationRecord) × List String :=
  let split := splitAxisLocationAndRanges axisLimits
  let location := split.1
  let axisRanges := split.2
  let pinnedAxes := location.map Prod.fst
  let axisOrder := fvarTags.filter (fun tag => ¬ pinnedAxes.contains tag)
  let axisIndexMap := axisOrder.enum.map (fun p => (p.2, p.1))
  let st := records.foldl (fvStep location axisRanges fvarTags axisIndexMap)
    { featureVariationApplied := false, uniqueRecords := [], newRecords := []
      featureList := featureList, warnings := [] }
  (st.featureList, if st.newRecords.isEmpty then none else some st.newRecords, st.warnings)

/-- Digits to a natural number. -/
def digitsToNat (cs : List Char) : ℕ :=
  cs.foldl (fun n c => n * 10 + (c.toNat - 48)) 0

/-- Modelled from the spec: Python `float(string)` as used by
`strToFixedToFloat` (fontTools.misc.fixedTools, not under the verified
sources), restricted to plain decimal numerals: optional sign, digits, and an
optional fractional part, parsed exactly. -/
def parseFloat (cs : List Char) : Option ℚ :=
  let signed : ℚ × List Char :=
    match cs with
    | '-' :: rest => (-1, rest)
    | '+' :: rest => (1, rest)
    | _ => (1, cs)
  let intPart := signed.2.takeWhile (·.isDigit)
  let rest := signed.2.dropWhile (·.isDigit)
  match rest with
  | [] => if intPart.isEmpty then none else some (signed.1 * (digitsToNat intPart : ℚ))
  | '.' :: frac =>
    if frac.all (·.isDigit) ∧ ¬ (intPart.isEmpty ∧ frac.isEmpty) then
      some (signed.1 * ((digitsToNat intPart : ℚ) + (digitsToNat frac : ℚ) / 10 ^ frac.length))
    else none
  | _ => none

/-- Modelled from the spec: `strToFixedToFloat` (fontTools.misc.fixedTools) is
not under the verified sources.  Section 4.A: "Numbers are parsed through a
16-bit fixed-point quantization to match font-file precision". -/
def strToFixedToFloat (cs : List Char) (precisionBits : ℕ) : Option ℚ :=
  (parseFloat cs).map (fun v => floatToFixedToFloat v precisionBits)

/-- Split a character list at the first occurrence of a character. -/
def splitFirst (c : Char) : List Char → Option (List Char × List Char)
  | [] => none
  | x :: xs =>
    if x = c then some ([], xs)
    else (splitFirst c xs).map (fun p => (x :: p.1, p.2))

/-- A regex word character (the source regex uses `\w`; ASCII modelled). -/
def isWordChar (c : Char) : Bool := c.isAlphanum || c = '_'

/-- The match against the source regex at line 1265,
`(\w{1,4})=(?:(drop)|(?:([^:]+)(?:[:](.+))?))`, anchored at both ends:
`none` for no match, otherwise the tag together with `none` for `drop` or the
one or two bound substrings. -/
def matchLimit (cs : List Char) : Option (List Char × Option (List Char × Option (List Char))) :=
  match splitFirst '=' cs with
  | none => none
  | some (tagCs, rhs) =>
    if 1 ≤ tagCs.length ∧ tagCs.length ≤ 4 ∧ tagCs.all isWordChar then
      if rhs = ['d', 'r', 'o', 'p'] then some (tagCs, none)
      else
        match splitFirst ':' rhs with
        | none => if rhs.isEmpty then none else some (tagCs, some (rhs, none))
        | some (g3, g4) =>
          if g3.isEmpty ∨ g4.isEmpty then none else some (tagCs, some (g3, some g4))
    else none

/-- `tag.ljust(4)`. -/
def ljust4 (tag : List Char) : String :=
  ⟨tag ++ List.replicate (4 - tag.length) ' '⟩

/-- `parseLimits` (source lines 1262-1280): parse the CLI limit strings into a
dict mapping padded tags to `None` (drop), a pinned value, or an axis range;
an `AxisRange` is built only when the two parsed bounds differ. -/
def parseLimits (limits : List String) : Except PyError (List (String × Option AxisLimit)) :=
  limits.foldlM (fun result limitString =>
    match matchLimit limitString.data with
    | none => .error (.valueError ("invalid location format: " ++ limitString))
    | some (tag, rhs) =>
      let tag4 := ljust4 tag
      match rhs with
      | none => .ok (setKey tag4 none result)
      | some (g3, g4opt) =>
        match strToFixedToFloat g3 16 with
        | none => .error (.valueError "could not convert string to float")
        | some lbound =>
          match g4opt with
          | none => .ok (setKey tag4 (some (AxisLimit.pin lbound)) result)
          | some g4 =>
            match strToFixedToFloat g4 16 with
            | none => .error (.valueError "could not convert string to float")
            | some ubound =>
              if lbound ≠ ubound then
                if lbound > ubound then
                  .error (.valueError "Range minimum must be <= maximum")
                else .ok (setKey tag4 (some (AxisLimit.range lbound ubound)) result)
              else .ok (setKey tag4 (some (AxisLimit.pin lbound)) result))
    []

/-- A named instance of the fvar table. -/
structure NamedInstance where
  coordinates : List (String × ℚ)
  subfamilyNameID : ℕ
  postscriptNameID : ℕ
deriving DecidableEq, Repr

/-- The fvar table: axes and named instances. -/
structure FvarTable where
  axes : List FvarAxis
  instances : List NamedInstance
deriving DecidableEq, Repr

/-- A layout table carrying a feature list and optional feature variations. -/
structure GsubTable where
  featureList : List ℕ
  featureVariations : Option (List FeatureVariationRecord)
deriving DecidableEq, Repr

/-- The modelled font: the tables of the instancer that this development
embeds.  Fonts in this class carry no glyf/gvar, MVAR, HVAR, VVAR, GDEF, GPOS
or STAT tables, so the instancer steps for those tables are skipped by their
presence checks, exactly as in the source. -/
structure Font where
  fvar : Option FvarTable
  avar : Option (List (String × List (ℚ × ℚ)))
  cvt : List ℚ
  cvar : Option (List TupleVariation)
  gsub : Option GsubTable
  nameIDs : List ℕ
  cff2 : Bool
deriving DecidableEq, Repr

/-- `sanityCheckVariableTables` (source lines 1137-1145) on the modelled font
class (which never has a gvar table, so the gvar-without-glyf check passes). -/
def sanityCheckVariableTables (varfont : Font) : Except PyError Unit :=
  if varfont.fvar.isNone then .error (.valueError "Missing required table fvar")
  else if varfont.cff2 then
    .error (.notImplementedError "Instancing CFF2 variable fonts is not supported yet")
  else .ok ()

/-- `populateAxisDefaults` (source lines 1148-1156): when any limit value is
`None`, replace each `None` with the axis's fvar default — looking the tag up
in the fvar-derived dict, which raises `KeyError` for a tag with no axis. -/
def populateAxisDefaults (fvarAxes : List FvarAxis)
    (axisLimits : List (String × Option AxisLimit)) :
    Except PyError (List (String × AxisLimit)) :=
  if axisLimits.any (fun p => p.2.isNone) then
    axisLimits.mapM (fun p =>
      match p.2 with
      | some v => .ok (p.1, v)
      | none =>
        match alookup p.1 (fvarAxes.map (fun a => (a.axisTag, a.defaultValue))) with
        | some d => .ok (p.1, AxisLimit.pin d)
        | none => .error (.keyError p.1))
  else
    .ok (axisLimits.filterMap (fun p => p.2.map (fun v => (p.1, v))))

/-- `setCvarDeltas` (source lines 376-379): add the rounded nonzero residues
into the control-value array. -/
def setCvarDeltas (cvt : List ℚ) (deltas : List ℚ) : List ℚ :=
  cvt.enum.map (fun p =>
    match deltas.get? p.1 with
    | some d => if d ≠ 0 then p.2 + (otRound d : ℚ) else p.2
    | none => p.2)

/-- `instantiateCvar` (source lines 382-393): run the tuple store transformer
on the cvar variations, fold any residue into the cvt values, and drop the
cvar table when no variations survive. -/
def instantiateCvar (cvt : List ℚ) (cvarVariations : List TupleVariation)
    (axisLimits : List (String × AxisLimit)) : List ℚ × Option (List TupleVariation) :=
  let r := instantiateTupleVariationStore cvarVariations axisLimits
  (if ¬ r.defaultDeltas.isEmpty then setCvarDeltas cvt r.defaultDeltas else cvt,
   if r.variations.isEmpty then none else some r.variations)

/-- `isInstanceWithinAxisRanges` (source lines 941-947). -/
def isInstanceWithinAxisRanges (location : List (String × ℚ))
    (axisRanges : List (String × (ℚ × ℚ))) : Bool :=
  location.all (fun p =>
    match alookup p.1 axisRanges with
    | some r => ¬ (p.2 < r.1 ∨ p.2 > r.2)
    | none => true)

/-- `instantiateFvar` (source lines 950-985): drop the table when all axes are
pinned; otherwise drop pinned axes, update ranged axes' extremes, and keep
only named instances matching the pinned location (a coordinate missing from
an instance is modelled as a mismatch) and lying within all ranges, with
pinned coordinates stripped. -/
def instantiateFvar (fvar : FvarTable) (axisLimits : List (String × AxisLimit)) :
    Except PyError (Option FvarTable) := do
  let split ← splitAxisLocationAndRangesChecked axisLimits
  let location := split.1
  let axisRanges := split.2
  let pinned := location.map Prod.fst
  if fvar.axes.all (fun a => pinned.contains a.axisTag) then
    return none
  let axes := fvar.axes.filterMap (fun a =>
    if pinned.contains a.axisTag then none
    else
      match alookup a.axisTag axisRanges with
      | some r => some { a with minValue := r.1, maxValue := r.2 }
      | none => some a)
  let instances := fvar.instances.filterMap (fun inst =>
    if location.any (fun lv =>
        match alookup lv.1 inst.coordinates with
        | some c => c ≠ lv.2
        | none => true) then none
    else
      let coords := inst.coordinates.filter (fun p => ¬ pinned.contains p.1)
      if ¬ isInstanceWithinAxisRanges coords axisRanges then none
      else some { inst with coordinates := coords })
  return some { axes := axes, instances := instances }

/-- `getVariationNameIDs` (source lines 1044-1061) on the modelled font class
(no STAT table): name IDs above 255 referenced by fvar axes and instances. -/
def getVariationNameIDs (fvar : Option FvarTable) : List ℕ :=
  let used : List ℕ :=
    match fvar with
    | none => []
    | some f =>
      f.axes.map (fun a => a.axisNameID)
        ++ (f.instances.map (fun i =>
             i.subfamilyNameID ::
               (if i.postscriptNameID ≠ 0xFFFF then [i.postscriptNameID] else []))).flatten
  used.filter (fun n => n > 255)

/-- `instantiateVariableFont` (source lines 1159-1242) on the modelled font
class.  The deep copy for `inplace=False` is the identity under value
semantics; steps for tables absent from the class (gvar, MVAR, HVAR, VVAR,
GDEF/GPOS variation stores, STAT) are skipped by their presence checks; the
overlap-flag pass requires a glyf table (absent); the trailing
`set_default_weight_width_slant` call is outside the verified sources and
touches only tables outside the class.  Returns the instanced font and the
warnings logged. -/
def instantiateVariableFont (varfont : Font) (axisLimits : List (String × Option AxisLimit))
    (inplace optimize overlap : Bool) : Except PyError (Font × List String) := do
  let _ := (inplace, optimize, overlap)
  let _ ← sanityCheckVariableTables varfont
  let fvarTable := varfont.fvar.getD { axes := [], instances := [] }
  let axisLimits2 ← populateAxisDefaults fvarTable.axes axisLimits
  let normalizedLimits ← normalizeAxisLimits fvarTable.axes varfont.avar axisLimits2 true
  let font := varfont
  let font :=
    match font.cvar with
    | some vars =>
      let r := instantiateCvar font.cvt vars normalizedLimits
      { font with cvt := r.1, cvar := r.2 }
    | none => font
  let gsubResult : Option GsubTable × List String :=
    match font.gsub with
    | some g =>
      match g.featureVariations with
      | some records =>
        let r := instantiateFeatureVariationsCore g.featureList records
          (fvarTable.axes.map (·.axisTag)) normalizedLimits
        (some { featureList := r.1, featureVariations := r.2.1 }, r.2.2)
      | none => (font.gsub, [])
    | none => (none, [])
  let font := { font with gsub := gsubResult.1 }
  let avarResult : Option (List (String × List (ℚ × ℚ))) × List String ←
    match font.avar with
    | some segments => instantiateAvar fvarTable.axes segments axisLimits2
    | none => pure (none, [])
  let font := { font with avar := avarResult.1 }
  let origNameIDs := getVariationNameIDs font.fvar
  let newFvar ← instantiateFvar fvarTable axisLimits2
  let font := { font with fvar := newFvar }
  let newNameIDs := getVariationNameIDs font.fvar
  let exclude := origNameIDs.filter (fun n => ¬ newNameIDs.contains n)
  let font := { font with nameIDs := font.nameIDs.filter (fun n => ¬ exclude.contains n) }
  return (font, gsubResult.2 ++ avarResult.2)

/-- Spec-side predicate for claim C7: a record "applies" when every condition
is a format-1 condition on a pinned axis whose pinned coordinate lies inside
the condition filter range (this is what makes the condition loop of
`_instantiateFeatureVariationRecord` consume all conditions with
`applies` still `True`). -/
def recordApplies (location : List (String × ℚ)) (fvarTags : List String)
    (rec : FeatureVariationRecord) : Bool :=
  rec.conditions.all (fun c =>
    c.format = 1 &&
    match fvarTags[c.axisIndex]? with
    | some tag =>
      match alookup tag location with
      | some v => decide (c.filterRangeMinValue ≤ v ∧ v ≤ c.filterRangeMaxValue)
      | none => false
    | none => false)

/-! ## Theorems about `limitTupleVariationAxisRange` (claims C10, C2, C1) -/

/-- C10: for every tuple variation whose tent on the limited axis is malformed
(`lower > peak` or `peak > upper`), has peak 0 (including a missing axis,
which reads as the tent `(-1, 0, +1)`), or straddles zero
(`lower < 0 < upper`), `limitTupleVariationAxisRange` returns the variation
unchanged as its single output, for any normalized axis range. -/
theorem limitAxisRange_nonparticipating_unchanged (var : TupleVariation)
    (axisTag : String) (axisRange : ℚ × ℚ) (l p u : ℚ)
    (htent : (alookup axisTag var.axes).getD (-1, 0, 1) = (l, p, u))
    (h : p = 0 ∨ l > p ∨ p > u ∨ (l < 0 ∧ 0 < u))
    (hmin : -1 ≤ axisRange.1 ∧ axisRange.1 ≤ 0)
    (hmax : 0 ≤ axisRange.2 ∧ axisRange.2 ≤ 1) :
    limitTupleVariationAxisRange var axisTag axisRange = [var] := by
  simp only [limitTupleVariationAxisRange]
  rw [if_pos (by rw [htent]; exact h)]

/-- Witness for C10 at a concrete input: the axis is missing from the tent
mapping, so it reads as `(-1, 0, +1)` with peak 0 and the variation passes
through unchanged. -/
theorem limitAxisRange_nonparticipating_unchanged_witness :
    limitTupleVariationAxisRange ⟨[], [(7 : ℚ)]⟩ "wght" (-1/2, 1/2) = [⟨[], [(7 : ℚ)]⟩] :=
  limitAxisRange_nonparticipating_unchanged ⟨[], [(7 : ℚ)]⟩ "wght" (-1/2, 1/2)
    (-1) 0 1 (by simp [alookup]) (Or.inl rfl) (by norm_num) (by norm_num)

/-- C2 counterexample: a tent entirely on the negative side whose rebased
outer bound reaches 2 is rewritten to outer bound `-2.0`: the clamp to the
maximum 2.14-representable value (`MAX_F2DOT14 < 2`) is *not* applied on the
negative side, contrary to the claim that it is. -/
theorem limitAxisRange_negative_noclamp_counterexample :
    limitTupleVariationAxisRange ⟨[("a", ((-1 : ℚ), -1/4, 0))], [1]⟩ "a" (-1/2, 0) =
      [⟨[("a", ((-2 : ℚ), -1/2, 0))], [1]⟩] ∧ MAX_F2DOT14 < 2 := by
  constructor
  · norm_num [limitTupleVariationAxisRange, limitTupleVariationAxisRange.limitCore,
      alookup, setKey, scaleDeltas, supportScalar, supportScalarAxis, MAX_F2DOT14, negateTent]
  · norm_num [MAX_F2DOT14]

/-- C2 as amended: in case 3 (rebased peak strictly inside the new range,
rebased outer bound at most 2) the delta payload is left untouched and only
the tent bounds are rewritten; on the positive side the outer bound is clamped
to `MAX_F2DOT14`, while on the negative side the bounds are negated back
without clamping (the outer bound may reach -2.0, which is 2.14-representable). -/
theorem limitAxisRange_case3_bounds_only (var : TupleVariation) (axisTag : String)
    (lo hi l p u : ℚ)
    (hlook : alookup axisTag var.axes = some (l, p, u))
    (hlp : l ≤ p) (hpu : p ≤ u) (hp : p ≠ 0) (hstr : ¬ (l < 0 ∧ 0 < u))
    (hside : if l < 0 then -1 < lo ∧ lo < 0 else 0 < hi ∧ hi < 1)
    (hP : (if l < 0 then p / lo else p / hi) < 1)
    (hU : (if l < 0 then l / lo else u / hi) ≤ 2) :
    limitTupleVariationAxisRange var axisTag (lo, hi) =
      [⟨setKey axisTag
          (if l < 0 then (-(l / lo), -(p / lo), -(u / lo))
           else (l / hi, p / hi, if MAX_F2DOT14 < u / hi then MAX_F2DOT14 else u / hi))
          var.axes,
        var.coordinates⟩] := by
  by_cases hneg : l < 0
  · rw [if_pos hneg] at hside hP hU ⊢
    obtain ⟨hlo1, hlo0⟩ := hside
    have hu : u ≤ 0 := by
      by_contra hc
      exact hstr ⟨hneg, lt_of_not_le hc⟩
    have hguard : ¬ (((alookup axisTag var.axes).getD (-1, 0, 1)).2.1 = 0 ∨
        ((alookup axisTag var.axes).getD (-1, 0, 1)).1 >
          ((alookup axisTag var.axes).getD (-1, 0, 1)).2.1 ∨
        ((alookup axisTag var.axes).getD (-1, 0, 1)).2.1 >
          ((alookup axisTag var.axes).getD (-1, 0, 1)).2.2 ∨
        (((alookup axisTag var.axes).getD (-1, 0, 1)).1 < 0 ∧
          0 < ((alookup axisTag var.axes).getD (-1, 0, 1)).2.2)) := by
      simp only [hlook, Option.getD_some, not_or]
      exact ⟨hp, not_lt.mpr hlp, not_lt.mpr hpu, hstr⟩
    have hNL : u / lo < 1 :=
      lt_of_le_of_lt ((div_le_div_right_of_neg hlo0).mpr hpu) hP
    simp only [limitTupleVariationAxisRange]
    rw [if_neg hguard]
    simp only [hlook, Option.getD_some]
    rw [if_pos hneg]
    rw [if_neg (ne_of_gt hlo1), if_neg (ne_of_lt hlo0)]
    simp only [limitTupleVariationAxisRange.limitCore, if_true]
    rw [if_neg (by rintro ⟨h1, -⟩; exact absurd h1 (ne_of_lt hNL)), if_neg (not_le.mpr hNL),
        if_neg (not_le.mpr hP), if_pos hU]
    simp [negateTent]
  · rw [if_neg hneg] at hside hP hU ⊢
    obtain ⟨hhi0, hhi1⟩ := hside
    have hl : 0 ≤ l := not_lt.mp hneg
    have hguard : ¬ (((alookup axisTag var.axes).getD (-1, 0, 1)).2.1 = 0 ∨
        ((alookup axisTag var.axes).getD (-1, 0, 1)).1 >
          ((alookup axisTag var.axes).getD (-1, 0, 1)).2.1 ∨
        ((alookup axisTag var.axes).getD (-1, 0, 1)).2.1 >
          ((alookup axisTag var.axes).getD (-1, 0, 1)).2.2 ∨
        (((alookup axisTag var.axes).getD (-1, 0, 1)).1 < 0 ∧
          0 < ((alookup axisTag var.axes).getD (-1, 0, 1)).2.2)) := by
      simp only [hlook, Option.getD_some, not_or]
      exact ⟨hp, not_lt.mpr hlp, not_lt.mpr hpu, hstr⟩
    have hL : l / hi < 1 := lt_of_le_of_lt (div_le_div_of_nonneg_right hlp hhi0.le) hP
    simp only [limitTupleVariationAxisRange]
    rw [if_neg hguard]
    simp only [hlook, Option.getD_some]
    rw [if_neg hneg]
    rw [if_neg (ne_of_lt hhi1), if_neg (ne_of_gt hhi0)]
    simp only [limitTupleVariationAxisRange.limitCore, Bool.false_eq_true, if_false]
    rw [if_neg (by rintro ⟨h1, -⟩; exact absurd h1 (ne_of_lt hL)), if_neg (not_le.mpr hL),
        if_neg (not_le.mpr hP), if_pos hU]

/-- Witness for the amended C2 on the negative side: the counterexample input,
evaluated through the theorem. -/
theorem limitAxisRange_case3_bounds_only_witness :
    limitTupleVariationAxisRange ⟨[("a", ((-1 : ℚ), -1/4, 0))], [1]⟩ "a" (-1/2, 0) =
      [⟨[("a", ((-2 : ℚ), -1/2, 0))], [1]⟩] := by
  rw [limitAxisRange_case3_bounds_only ⟨[("a", ((-1 : ℚ), -1/4, 0))], [1]⟩ "a"
    (-1/2) 0 (-1) (-1/4) 0 (by norm_num [alookup]) (by norm_num) (by norm_num)
    (by norm_num) (by norm_num) (by norm_num) (by norm_num) (by norm_num)]
  norm_num [setKey]

/-- C1 counterexample: in the split case the kept original tent retains its
deltas *unscaled* (here `[12]`), while the claim says they are scaled by
`s1 - s2` (which would give `12 * (3/4 - 2/3) = 1 ≠ 12`); it is the second
tent that carries the scaled deltas. -/
theorem limitAxisRange_split_scaling_counterexample :
    limitTupleVariationAxisRange ⟨[("a", ((0 : ℚ), 1/5, 1))], [12]⟩ "a" (0, 2/5) =
      [⟨[("a", ((0 : ℚ), 1/2, MAX_F2DOT14))], [12]⟩, ⟨[("a", ((1/2 : ℚ), 1, 1))], [1]⟩] ∧
    (12 : ℚ) ≠ 12 * (supportScalar [("a", 2/5)] [("a", ((0 : ℚ), 1/5, 1))] - 1 / (2 - 1/2)) := by
  constructor
  · norm_num [limitTupleVariationAxisRange, limitTupleVariationAxisRange.limitCore,
      alookup, setKey, scaleDeltas, supportScalar, supportScalarAxis, MAX_F2DOT14, negateTent]
  · norm_num [supportScalar, supportScalarAxis, alookup]

/-- C1 as amended: in the split case (rebased peak strictly inside the new
range, rebased outer bound strictly above 2), the function returns exactly two
variations.  The kept original tent has *untouched* deltas and bounds
`(L, P, MAX_F2DOT14)` on the positive side but `(-2, -P, -L)` on the negative
side (outer bound -2.0, not clamped); the second tent sits at `(P, 1, 1)`
(negative side: `(-1, -1, -P)`) and carries the original deltas scaled by
`s1 - s2`, where `s1` is the original tent's support scalar at the new limit,
`s2 = 1 / (2 - P)`, and `L`, `P` are the rebased innermost bound and peak. -/
theorem limitAxisRange_split_two_tents (var : TupleVariation) (axisTag : String)
    (lo hi l p u : ℚ)
    (hlook : alookup axisTag var.axes = some (l, p, u))
    (hlp : l ≤ p) (hpu : p ≤ u) (hp : p ≠ 0) (hstr : ¬ (l < 0 ∧ 0 < u))
    (hside : if l < 0 then -1 < lo ∧ lo < 0 else 0 < hi ∧ hi < 1)
    (hP : (if l < 0 then p / lo else p / hi) < 1)
    (hU : 2 < (if l < 0 then l / lo else u / hi)) :
    limitTupleVariationAxisRange var axisTag (lo, hi) =
      [⟨setKey axisTag
          (if l < 0 then (-2, -(p / lo), -(u / lo)) else (l / hi, p / hi, MAX_F2DOT14))
          var.axes, var.coordinates⟩,
       ⟨setKey axisTag
          (if l < 0 then (-1, -1, -(p / lo)) else (p / hi, 1, 1)) var.axes,
        var.coordinates.map
          (· * (supportScalar [(axisTag, if l < 0 then lo else hi)] [(axisTag, (l, p, u))]
                - 1 / (2 - p / (if l < 0 then lo else hi))))⟩] := by
  by_cases hneg : l < 0
  · simp only [if_pos hneg] at hside hP hU ⊢
    obtain ⟨hlo1, hlo0⟩ := hside
    have hguard : ¬ (((alookup axisTag var.axes).getD (-1, 0, 1)).2.1 = 0 ∨
        ((alookup axisTag var.axes).getD (-1, 0, 1)).1 >
          ((alookup axisTag var.axes).getD (-1, 0, 1)).2.1 ∨
        ((alookup axisTag var.axes).getD (-1, 0, 1)).2.1 >
          ((alookup axisTag var.axes).getD (-1, 0, 1)).2.2 ∨
        (((alookup axisTag var.axes).getD (-1, 0, 1)).1 < 0 ∧
          0 < ((alookup axisTag var.axes).getD (-1, 0, 1)).2.2)) := by
      simp only [hlook, Option.getD_some, not_or]
      exact ⟨hp, not_lt.mpr hlp, not_lt.mpr hpu, hstr⟩
    have hNL : u / lo < 1 :=
      lt_of_le_of_lt ((div_le_div_right_of_neg hlo0).mpr hpu) hP
    simp only [limitTupleVariationAxisRange]
    rw [if_neg hguard]
    simp only [hlook, Option.getD_some]
    rw [if_pos hneg]
    rw [if_neg (ne_of_gt hlo1), if_neg (ne_of_lt hlo0)]
    simp only [limitTupleVariationAxisRange.limitCore, if_true]
    rw [if_neg (by rintro ⟨h1, -⟩; exact absurd h1 (ne_of_lt hNL)), if_neg (not_le.mpr hNL),
        if_neg (not_le.mpr hP), if_neg (not_le.mpr hU)]
    simp [scaleDeltas]
  · simp only [if_neg hneg] at hside hP hU ⊢
    obtain ⟨hhi0, hhi1⟩ := hside
    have hl : 0 ≤ l := not_lt.mp hneg
    have hguard : ¬ (((alookup axisTag var.axes).getD (-1, 0, 1)).2.1 = 0 ∨
        ((alookup axisTag var.axes).getD (-1, 0, 1)).1 >
          ((alookup axisTag var.axes).getD (-1, 0, 1)).2.1 ∨
        ((alookup axisTag var.axes).getD (-1, 0, 1)).2.1 >
          ((alookup axisTag var.axes).getD (-1, 0, 1)).2.2 ∨
        (((alookup axisTag var.axes).getD (-1, 0, 1)).1 < 0 ∧
          0 < ((alookup axisTag var.axes).getD (-1, 0, 1)).2.2)) := by
      simp only [hlook, Option.getD_some, not_or]
      exact ⟨hp, not_lt.mpr hlp, not_lt.mpr hpu, hstr⟩
    have hL : l / hi < 1 := lt_of_le_of_lt (div_le_div_of_nonneg_right hlp hhi0.le) hP
    simp only [limitTupleVariationAxisRange]
    rw [if_neg hguard]
    simp only [hlook, Option.getD_some]
    rw [if_neg hneg]
    rw [if_neg (ne_of_lt hhi1), if_neg (ne_of_gt hhi0)]
    simp only [limitTupleVariationAxisRange.limitCore, Bool.false_eq_true, if_false]
    rw [if_neg (by rintro ⟨h1, -⟩; exact absurd h1 (ne_of_lt hL)), if_neg (not_le.mpr hL),
        if_neg (not_le.mpr hP), if_neg (not_le.mpr hU)]
    simp [scaleDeltas]

/-- Witness for the amended C1 at concrete split inputs on both sides.
Positive: tent (0, 1/5, 1) limited to maximum 2/5 gives `s1 = 3/4`,
`s2 = 2/3`, so the second tent's deltas are `[12 * 1/12] = [1]` while the kept
tent retains `[12]` with outer bound MAX_F2DOT14.  Negative: tent
(-1, -1/5, 0) limited to minimum -2/5 keeps (-2, -1/2, 0) with `[12]` and adds
(-1, -1, -1/2) with `[1]` — the kept outer bound is -2.0, unclamped. -/
theorem limitAxisRange_split_two_tents_witness :
    (limitTupleVariationAxisRange ⟨[("a", ((0 : ℚ), 1/5, 1))], [12]⟩ "a" (0, 2/5) =
      [⟨[("a", ((0 : ℚ), 1/2, MAX_F2DOT14))], [12]⟩, ⟨[("a", ((1/2 : ℚ), 1, 1))], [1]⟩])
    ∧ (limitTupleVariationAxisRange ⟨[("a", ((-1 : ℚ), -1/5, 0))], [12]⟩ "a" (-2/5, 0) =
      [⟨[("a", ((-2 : ℚ), -1/2, 0))], [12]⟩, ⟨[("a", ((-1 : ℚ), -1, -1/2))], [1]⟩]) := by
  constructor
  · rw [limitAxisRange_split_two_tents ⟨[("a", ((0 : ℚ), 1/5, 1))], [12]⟩ "a"
      0 (2/5) 0 (1/5) 1 (by norm_num [alookup]) (by norm_num) (by norm_num)
      (by norm_num) (by norm_num) (by norm_num) (by norm_num) (by norm_num)]
    norm_num [setKey, supportScalar, supportScalarAxis, alookup]
  · rw [limitAxisRange_split_two_tents ⟨[("a", ((-1 : ℚ), -1/5, 0))], [12]⟩ "a"
      (-2/5) 0 (-1) (-1/5) 0 (by norm_num [alookup]) (by norm_num) (by norm_num)
      (by norm_num) (by norm_num) (by norm_num) (by norm_num) (by norm_num)]
    norm_num [setKey, supportScalar, supportScalarAxis, alookup]

/-! ## Theorems about `pinTupleVariationAxes` (claim C3) -/

/-- Looking up the key of an entry of an association list with distinct keys
yields that entry's value. -/
theorem alookup_eq_of_mem_nodup {κ α : Type} [DecidableEq κ] {l : List (κ × α)}
    (hnd : (l.map Prod.fst).Nodup) {p : κ × α} (hp : p ∈ l) :
    alookup p.1 l = some p.2 := by
  induction l with
  | nil => cases hp
  | cons q rest ih =>
    simp only [List.map_cons, List.nodup_cons] at hnd
    rcases List.mem_cons.mp hp with h | h
    · subst h
      simp [alookup]
    · have hne : q.1 ≠ p.1 := by
        intro he
        exact hnd.1 (he ▸ List.mem_map_of_mem Prod.fst h)
      simp only [alookup, if_neg hne]
      exact ih hnd.2 h

/-- A left fold of multiplications is the product of the mapped list. -/
theorem foldl_mul_map {α : Type} (g : α → ℚ) (init : ℚ) (l : List α) :
    l.foldl (fun s p => s * g p) init = init * (l.map g).prod := by
  induction l generalizing init with
  | nil => simp
  | cons a as ih => simp [ih, List.prod_cons, mul_assoc]

/-- `eraseKey` is a filter on the key. -/
theorem eraseKey_eq_filter {κ α : Type} [DecidableEq κ] (k : κ) (l : List (κ × α)) :
    eraseKey k l = l.filter (fun p => decide (p.1 ≠ k)) := by
  induction l with
  | nil => rfl
  | cons q rest ih =>
    by_cases h : q.1 = k
    · simp [eraseKey, h, ih]
    · simp [eraseKey, h, ih, List.filter_cons]

/-- Folding `eraseKey` over the pinned location removes exactly the entries
whose key is a pinned axis. -/
theorem foldl_eraseKey_eq_filter (axes : List (String × Tent)) (loc : List (String × ℚ)) :
    loc.foldl (fun axs al => eraseKey al.1 axs) axes
      = axes.filter (fun p => decide (p.1 ∉ loc.map Prod.fst)) := by
  induction loc generalizing axes with
  | nil => simp
  | cons a as ih =>
    rw [List.foldl_cons, ih, eraseKey_eq_filter, List.filter_filter]
    apply List.filter_congr
    intro p _
    simp only [List.map_cons, List.mem_cons, not_or]
    by_cases h1 : p.1 = a.1 <;> by_cases h2 : p.1 ∈ List.map Prod.fst as <;> simp [h1, h2]

/-- C3: pinning computes the product of the per-axis support scalars of the
pinned location, an axis missing from the variation's tent mapping reading as
the tent `(-1, 0, +1)`; a variation with scalar 0 is removed, and otherwise
its delta payload is multiplied by the scalar, every pinned axis is removed
from its tent mapping, and the variation is kept. -/
theorem pin_axes_spec (variations : List TupleVariation) (location : List (String × ℚ))
    (hnd : (location.map Prod.fst).Nodup) :
    pinTupleVariationAxes variations location =
      variations.filterMap (fun var =>
        let s := (location.map (fun al =>
          supportScalarAxis al.2 ((alookup al.1 var.axes).getD (-1, 0, 1)))).prod
        if s = 0 then none
        else some ⟨var.axes.filter (fun p => decide (p.1 ∉ location.map Prod.fst)),
                   var.coordinates.map (· * s)⟩) := by
  unfold pinTupleVariationAxes
  apply List.filterMap_congr
  intro var _
  have hscal : supportScalar location
      (location.map (fun al => (al.1, (alookup al.1 var.axes).getD (-1, 0, 1))))
      = (location.map (fun al =>
          supportScalarAxis al.2 ((alookup al.1 var.axes).getD (-1, 0, 1)))).prod := by
    unfold supportScalar
    rw [foldl_mul_map
        (fun (p : String × Tent) => supportScalarAxis ((alookup p.1 location).getD 0) p.2) 1,
      one_mul, List.map_map]
    congr 1
    apply List.map_congr_left
    intro al hal
    simp only [Function.comp_apply]
    rw [alookup_eq_of_mem_nodup hnd hal]
    rfl
  simp only [hscal, foldl_eraseKey_eq_filter, scaleDeltas]

/-- Witness for C3 at a concrete input: the first variation is kept with its
deltas halved (support 1/2 at wght=1/2) and its wght entry removed; the
second has support 0 and is dropped. -/
theorem pin_axes_spec_witness :
    pinTupleVariationAxes
      [⟨[("wght", ((0 : ℚ), 1, 1)), ("wdth", ((0 : ℚ), 1/2, 1))], [10]⟩,
       ⟨[("wght", ((3/4 : ℚ), 1, 1))], [8]⟩]
      [("wght", (1/2 : ℚ))] =
      [⟨[("wdth", ((0 : ℚ), 1/2, 1))], [5]⟩] := by
  rw [pin_axes_spec _ _ (by simp)]
  norm_num [alookup, supportScalarAxis, List.filterMap_cons]
  decide

/-! ## The merge step of `instantiateTupleVariationStore` (claim C4) -/

/-- The merge described by the spec: output entries in first-occurrence
order of the tent mapping, each summing the delta vectors of its group. -/
def mergeSpec : List TupleVariation → List TupleVariation
  | [] => []
  | v :: vs =>
    ⟨v.axes,
     (vs.filter (fun w => axesItemsEq w.axes v.axes)).foldl
       (fun acc w => List.zipWith (· + ·) acc w.coordinates) v.coordinates⟩ ::
    mergeSpec (vs.filter (fun w => !axesItemsEq w.axes v.axes))
termination_by l => l.length
decreasing_by
  simp_wf
  have := List.length_filter_le (fun w => !axesItemsEq w.axes v.axes) vs
  omega

/-- `axesItemsEq` holds exactly when the two mappings have the same items. -/
theorem axesItemsEq_iff (a b : List (String × Tent)) :
    axesItemsEq a b = true ↔ ∀ p, p ∈ a ↔ p ∈ b := by
  simp only [axesItemsEq, Bool.and_eq_true, List.all_eq_true, decide_eq_true_eq]
  constructor
  · rintro ⟨h1, h2⟩ p
    exact ⟨fun h => h1 p h, fun h => h2 p h⟩
  · intro h
    exact ⟨fun p hp => (h p).mp hp, fun p hp => (h p).mpr hp⟩

/-- `axesItemsEq` is symmetric. -/
theorem axesItemsEq_symm (a b : List (String × Tent)) :
    axesItemsEq a b = axesItemsEq b a := by
  simp [axesItemsEq, Bool.and_comm]

/-- `axesItemsEq` is transitive. -/
theorem axesItemsEq_trans {a b c : List (String × Tent)}
    (h1 : axesItemsEq a b = true) (h2 : axesItemsEq b c = true) :
    axesItemsEq a c = true := by
  rw [axesItemsEq_iff] at h1 h2 ⊢
  intro p
  exact (h1 p).trans (h2 p)

/-- The coordinates a merged-dict entry accumulates from a list. -/
def mergeGroup (vs : List TupleVariation) (w : TupleVariation) : TupleVariation :=
  ⟨w.axes, (vs.filter (fun g => axesItemsEq g.axes w.axes)).foldl
    (fun c g => List.zipWith (· + ·) c g.coordinates) w.coordinates⟩

/-- `mergeSpec` on the empty list. -/
theorem mergeSpec_nil : mergeSpec [] = [] := by
  rw [mergeSpec]

/-- An entry accumulates nothing from an empty list. -/
theorem mergeGroup_nil (w : TupleVariation) : mergeGroup [] w = w := rfl

/-- Unfolding equation of `mergeSpec`. -/
theorem mergeSpec_cons (v : TupleVariation) (vs : List TupleVariation) :
    mergeSpec (v :: vs) =
      mergeGroup vs v :: mergeSpec (vs.filter (fun w => !axesItemsEq w.axes v.axes)) := by
  rw [mergeSpec]
  rfl

/-- The OrderedDict fold, started from any accumulator with pairwise distinct
keys, merges each accumulator entry with its group and appends the spec-side
merge of the unmatched remainder. -/
theorem foldl_addToMerged (vs : List TupleVariation) :
    ∀ acc : List TupleVariation,
    acc.Pairwise (fun x y => axesItemsEq x.axes y.axes = false) →
    vs.foldl addToMerged acc =
      acc.map (mergeGroup vs) ++
      mergeSpec (vs.filter (fun g => !(acc.any (fun w => axesItemsEq w.axes g.axes)))) := by
  induction vs with
  | nil =>
    intro acc hacc
    simp only [List.foldl_nil, List.filter_nil, mergeSpec_nil, List.append_nil]
    rw [List.map_congr_left (fun w _ => mergeGroup_nil w)]
    simp
  | cons v vs ih =>
    intro acc hacc
    rw [List.foldl_cons]
    by_cases hmatch : acc.any (fun w => axesItemsEq w.axes v.axes) = true
    · -- v merges into an existing entry
      set f : TupleVariation → TupleVariation := fun w =>
        if axesItemsEq w.axes v.axes then
          ⟨w.axes, List.zipWith (· + ·) w.coordinates v.coordinates⟩
        else w with hf
      have haddm : addToMerged acc v = acc.map f := by
        simp only [addToMerged, if_pos hmatch, hf]
      have hkeys : ∀ w : TupleVariation, (f w).axes = w.axes := by
        intro w
        by_cases h : axesItemsEq w.axes v.axes <;> simp [hf, h]
      have hdist' : (acc.map f).Pairwise (fun x y => axesItemsEq x.axes y.axes = false) := by
        rw [List.pairwise_map]
        apply hacc.imp
        intro a b h
        rw [hkeys, hkeys]
        exact h
      rw [haddm, ih _ hdist']
      congr 1
      · rw [List.map_map]
        apply List.map_congr_left
        intro w hw
        simp only [Function.comp_apply]
        by_cases h : axesItemsEq w.axes v.axes = true
        · have hfw : f w = ⟨w.axes, List.zipWith (· + ·) w.coordinates v.coordinates⟩ := by
            rw [hf]
            simp only [if_pos h]
          rw [hfw]
          simp only [mergeGroup]
          have hv : axesItemsEq v.axes w.axes = true := by rw [axesItemsEq_symm]; exact h
          rw [List.filter_cons_of_pos (by simpa using hv), List.foldl_cons]
        · have hfw : f w = w := by
            rw [hf]
            simp only [if_neg h]
          rw [hfw]
          simp only [mergeGroup]
          have hv : axesItemsEq v.axes w.axes = false := by
            rw [axesItemsEq_symm]; simpa using h
          rw [List.filter_cons_of_neg (by simp [hv])]
      · congr 1
        rw [List.filter_cons_of_neg (by simp [hmatch])]
        apply List.filter_congr
        intro g _
        rw [List.any_map]
        have hcomp : ((fun w => axesItemsEq w.axes g.axes) ∘ f)
            = fun w => axesItemsEq w.axes g.axes := by
          funext w
          simp only [Function.comp_apply, hkeys]
        rw [hcomp]
    · -- v appended as a new entry
      have hmatch' : acc.any (fun w => axesItemsEq w.axes v.axes) = false :=
        Bool.eq_false_iff.mpr hmatch
      have hnotin : ∀ w ∈ acc, axesItemsEq w.axes v.axes = false := by
        intro w hw
        cases h : axesItemsEq w.axes v.axes with
        | false => rfl
        | true => exact absurd (List.any_eq_true.mpr ⟨w, hw, h⟩) hmatch
      have haddm : addToMerged acc v = acc ++ [v] := by
        simp only [addToMerged, if_neg hmatch]
      have hdist' : (acc ++ [v]).Pairwise (fun x y => axesItemsEq x.axes y.axes = false) := by
        rw [List.pairwise_append]
        refine ⟨hacc, List.pairwise_singleton _ _, ?_⟩
        intro a ha b hb
        rw [List.mem_singleton] at hb
        subst hb
        exact hnotin a ha
      rw [haddm, ih _ hdist']
      rw [List.map_append, List.map_singleton]
      rw [List.filter_cons_of_pos (by simp [hmatch'])]
      rw [mergeSpec_cons]
      rw [List.append_assoc, List.singleton_append]
      congr 1
      · apply List.map_congr_left
        intro w hw
        simp only [mergeGroup]
        have hv : axesItemsEq v.axes w.axes = false := by
          rw [axesItemsEq_symm]
          exact hnotin w hw
        rw [List.filter_cons_of_neg (by simp [hv])]
      · congr 1
        · simp only [mergeGroup]
          congr 1
          rw [List.filter_filter]
          congr 1
          apply List.filter_congr
          intro g _
          by_cases hg : axesItemsEq g.axes v.axes = true
          · have hPg : acc.any (fun w => axesItemsEq w.axes g.axes) = false := by
              cases h2 : acc.any (fun w => axesItemsEq w.axes g.axes) with
              | false => rfl
              | true =>
                obtain ⟨w, hw, hwg⟩ := List.any_eq_true.mp h2
                have hcontra : axesItemsEq w.axes v.axes = true := axesItemsEq_trans hwg hg
                rw [hnotin w hw] at hcontra
                cases hcontra
            simp [hg, hPg]
          · have hg' : axesItemsEq g.axes v.axes = false := Bool.eq_false_iff.mpr hg
            simp [hg']
        · rw [List.filter_filter]
          congr 1
          apply List.filter_congr
          intro g _
          rw [List.any_append]
          simp only [List.any_cons, List.any_nil]
          rw [axesItemsEq_symm v.axes g.axes]
          by_cases h1 : axesItemsEq g.axes v.axes = true <;>
            by_cases h2 : acc.any (fun w => axesItemsEq w.axes g.axes) = true <;>
            simp [h1, h2]

/-- The source's OrderedDict merge equals the spec-side merge. -/
theorem mergeVariations_eq_mergeSpec (vs : List TupleVariation) :
    mergeVariations vs = mergeSpec vs := by
  unfold mergeVariations
  rw [foldl_addToMerged vs [] List.Pairwise.nil]
  simp

/-- C4: `instantiateTupleVariationStore` merges variations with identical
tent mappings by summing their delta vectors, preserving the insertion order
of first occurrences (`mergeSpec`); it removes the variation whose tent
mapping is empty and returns its deltas as the default-delta residue (the
empty list when there is none), and rounds the delta payloads of all
remaining variations to integers. -/
theorem instantiateTupleVariationStore_spec (variations : List TupleVariation)
    (axisLimits : List (String × AxisLimit)) :
    instantiateTupleVariationStore variations axisLimits =
      (let split := splitAxisLocationAndRanges axisLimits
       let vs := if split.1.isEmpty then variations
         else pinTupleVariationAxes variations split.1
       let vs := if split.2.isEmpty then vs else limitTupleVariationAxisRanges vs split.2
       let merged := mergeSpec vs
       { variations := (merged.filter (fun v => ¬ v.axes.isEmpty)).map roundDeltas
         defaultDeltas := ((merged.find? (fun v => v.axes.isEmpty)).map (·.coordinates)).getD [] }) := by
  simp only [instantiateTupleVariationStore, mergeVariations_eq_mergeSpec]

/-! ## Item variation store preservation (claim C5) -/

/-- Every column produced by `pyZip` has one entry per row. -/
theorem pyZip_mem_length {rows : List (List ℚ)} {c : List ℚ} (hc : c ∈ pyZip rows) :
    c.length = rows.length := by
  match rows with
  | [] => cases hc
  | r0 :: rest =>
    simp only [pyZip, List.mem_map] at hc
    obtain ⟨i, -, rfl⟩ := hc
    simp

/-- Folding `min` over equal lengths is the identity. -/
theorem foldl_min_const {m : ℕ} {l : List (List ℚ)} (h : ∀ r ∈ l, r.length = m) :
    l.foldl (fun acc r => min acc r.length) m = m := by
  induction l with
  | nil => rfl
  | cons r rest ih =>
    rw [List.foldl_cons, h r (List.mem_cons_self r rest), min_self]
    exact ih (fun q hq => h q (List.mem_cons_of_mem r hq))

/-- `pyZip` of a nonempty list of equal-length rows has that length. -/
theorem pyZip_length {r0 : List ℚ} {rest : List (List ℚ)} {m : ℕ}
    (h : ∀ r ∈ r0 :: rest, r.length = m) :
    (pyZip (r0 :: rest)).length = m := by
  simp only [pyZip, List.length_map, List.length_range]
  rw [h r0 (List.mem_cons_self r0 rest)]
  exact foldl_min_const (fun q hq => h q (List.mem_cons_of_mem r0 hq))

/-- Range-limiting never changes the delta payload length (core). -/
theorem limitCore_mem_length {var : TupleVariation} {axisTag : String}
    {limit lower peak upper : ℚ} {negative : Bool} {w : TupleVariation}
    (hw : w ∈ limitTupleVariationAxisRange.limitCore var axisTag limit lower peak upper negative) :
    w.coordinates.length = var.coordinates.length := by
  unfold limitTupleVariationAxisRange.limitCore at hw
  simp only [] at hw
  split_ifs at hw <;>
  first
  | · rw [List.mem_singleton] at hw
      subst hw
      simp [scaleDeltas]
  | · rw [List.mem_cons, List.mem_singleton] at hw
      rcases hw with rfl | rfl <;> simp [scaleDeltas]
  | cases hw

/-- Range-limiting never changes the delta payload length. -/
theorem limitAxisRange_mem_length {var : TupleVariation} {axisTag : String}
    {axisRange : ℚ × ℚ} {w : TupleVariation}
    (hw : w ∈ limitTupleVariationAxisRange var axisTag axisRange) :
    w.coordinates.length = var.coordinates.length := by
  unfold limitTupleVariationAxisRange at hw
  simp only [] at hw
  split_ifs at hw <;>
  first
  | · rw [List.mem_singleton] at hw
      subst hw
      rfl
  | exact limitCore_mem_length hw
  | cases hw

/-- Pinning never changes the delta payload length. -/
theorem pin_mem_length {vars : List TupleVariation} {loc : List (String × ℚ)} {n : ℕ}
    (hall : ∀ v ∈ vars, v.coordinates.length = n) {w : TupleVariation}
    (hw : w ∈ pinTupleVariationAxes vars loc) : w.coordinates.length = n := by
  unfold pinTupleVariationAxes at hw
  obtain ⟨v, hv, hfv⟩ := List.mem_filterMap.mp hw
  simp only [] at hfv
  split_ifs at hfv
  obtain rfl := Option.some_injective _ hfv
  simp [scaleDeltas, hall v hv]

/-- The per-axis range-limit fold preserves the delta payload length. -/
theorem foldl_limit_mem_length {n : ℕ} :
    ∀ (pairs : List (String × (ℚ × ℚ))) (vars : List TupleVariation),
    (∀ v ∈ vars, v.coordinates.length = n) →
    ∀ w ∈ pairs.foldl
      (fun vs ar => (vs.map (fun var => limitTupleVariationAxisRange var ar.1 ar.2)).flatten)
      vars,
    w.coordinates.length = n := by
  intro pairs
  induction pairs with
  | nil =>
    intro vars hall w hw
    exact hall w hw
  | cons ar rest ih =>
    intro vars hall w hw
    rw [List.foldl_cons] at hw
    refine ih _ (fun v hv => ?_) w hw
    rw [List.mem_flatten] at hv
    obtain ⟨l, hl, hvl⟩ := hv
    obtain ⟨var, hvar, rfl⟩ := List.mem_map.mp hl
    rw [limitAxisRange_mem_length hvl]
    exact hall var hvar

/-- `limitTupleVariationAxisRanges` preserves the delta payload length. -/
theorem limitRanges_mem_length {vars : List TupleVariation}
    {axisRanges : List (String × (ℚ × ℚ))} {n : ℕ}
    (hall : ∀ v ∈ vars, v.coordinates.length = n) {w : TupleVariation}
    (hw : w ∈ limitTupleVariationAxisRanges vars axisRanges) : w.coordinates.length = n :=
  foldl_limit_mem_length (sortByTag axisRanges) vars hall w hw

/-- Summing equal-length delta vectors preserves the length. -/
theorem foldl_zipWith_length {n : ℕ} (group : List TupleVariation) :
    ∀ init : List ℚ, init.length = n → (∀ g ∈ group, g.coordinates.length = n) →
    (group.foldl (fun c g => List.zipWith (· + ·) c g.coordinates) init).length = n := by
  induction group with
  | nil =>
    intro init h _
    exact h
  | cons g rest ih =>
    intro init hinit hall
    rw [List.foldl_cons]
    refine ih _ ?_ (fun q hq => hall q (List.mem_cons_of_mem g hq))
    rw [List.length_zipWith, hinit, hall g (List.mem_cons_self g rest), min_self]

/-- `mergeSpec` preserves the delta payload length. -/
theorem mergeSpec_mem_length {n : ℕ} :
    ∀ (k : ℕ) (vs : List TupleVariation), vs.length ≤ k →
    (∀ v ∈ vs, v.coordinates.length = n) →
    ∀ w ∈ mergeSpec vs, w.coordinates.length = n := by
  intro k
  induction k with
  | zero =>
    intro vs hlen hall w hw
    rw [List.length_eq_zero.mp (Nat.le_zero.mp hlen)] at hw
    rw [mergeSpec_nil] at hw
    cases hw
  | succ k ih =>
    intro vs hlen hall w hw
    match vs, hlen, hall, hw with
    | [], _, _, hw =>
      rw [mergeSpec_nil] at hw
      cases hw
    | v :: rest, hlen, hall, hw =>
      rw [mergeSpec_cons] at hw
      rcases List.mem_cons.mp hw with rfl | hw2
      · simp only [mergeGroup]
        apply foldl_zipWith_length
        · exact hall v (List.mem_cons_self _ _)
        · intro g hg
          exact hall g (List.mem_cons_of_mem _ (List.mem_of_mem_filter hg))
      · refine ih (rest.filter _) ?_ ?_ w hw2
        · have hle := List.length_filter_le (fun w => !axesItemsEq w.axes v.axes) rest
          simp only [List.length_cons, Nat.succ_le_succ_iff] at hlen
          omega
        · intro q hq
          exact hall q (List.mem_cons_of_mem _ (List.mem_of_mem_filter hq))

/-- `instantiateTupleVariationStore` preserves the delta payload length of
the surviving variations, and its residue (when any) has that length. -/
theorem store_result_length {variations : List TupleVariation}
    {axisLimits : List (String × AxisLimit)} {n : ℕ}
    (hall : ∀ v ∈ variations, v.coordinates.length = n) :
    (∀ w ∈ (instantiateTupleVariationStore variations axisLimits).variations,
      w.coordinates.length = n) ∧
    ((instantiateTupleVariationStore variations axisLimits).defaultDeltas = [] ∨
      (instantiateTupleVariationStore variations axisLimits).defaultDeltas.length = n) := by
  have h1 : ∀ v ∈ (if (splitAxisLocationAndRanges axisLimits).1.isEmpty then variations
      else pinTupleVariationAxes variations (splitAxisLocationAndRanges axisLimits).1),
      v.coordinates.length = n := by
    split_ifs
    · exact hall
    · exact fun v hv => pin_mem_length hall hv
  have h2 : ∀ v ∈ (if (splitAxisLocationAndRanges axisLimits).2.isEmpty then
      (if (splitAxisLocationAndRanges axisLimits).1.isEmpty then variations
        else pinTupleVariationAxes variations (splitAxisLocationAndRanges axisLimits).1)
      else limitTupleVariationAxisRanges
        (if (splitAxisLocationAndRanges axisLimits).1.isEmpty then variations
          else pinTupleVariationAxes variations (splitAxisLocationAndRanges axisLimits).1)
        (splitAxisLocationAndRanges axisLimits).2),
      v.coordinates.length = n := by
    split_ifs at h1 ⊢ <;>
    first
    | exact h1
    | exact fun v hv => limitRanges_mem_length h1 hv
  have hmerged : ∀ w ∈ mergeVariations
      (if (splitAxisLocationAndRanges axisLimits).2.isEmpty then
        (if (splitAxisLocationAndRanges axisLimits).1.isEmpty then variations
          else pinTupleVariationAxes variations (splitAxisLocationAndRanges axisLimits).1)
        else limitTupleVariationAxisRanges
          (if (splitAxisLocationAndRanges axisLimits).1.isEmpty then variations
            else pinTupleVariationAxes variations (splitAxisLocationAndRanges axisLimits).1)
          (splitAxisLocationAndRanges axisLimits).2),
      w.coordinates.length = n := by
    rw [mergeVariations_eq_mergeSpec]
    exact fun w hw => mergeSpec_mem_length _ _ le_rfl h2 w hw
  constructor
  · intro w hw
    unfold instantiateTupleVariationStore at hw
    try simp only [] at hw
    obtain ⟨w', hw', rfl⟩ := List.mem_map.mp hw
    have hw'' := List.mem_of_mem_filter hw'
    rw [roundDeltas, List.length_map]
    exact hmerged w' hw''
  · unfold instantiateTupleVariationStore
    try simp only []
    cases hfind : List.find? (fun v => v.axes.isEmpty) (mergeVariations
      (if (splitAxisLocationAndRanges axisLimits).2.isEmpty then
        (if (splitAxisLocationAndRanges axisLimits).1.isEmpty then variations
          else pinTupleVariationAxes variations (splitAxisLocationAndRanges axisLimits).1)
        else limitTupleVariationAxisRanges
          (if (splitAxisLocationAndRanges axisLimits).1.isEmpty then variations
            else pinTupleVariationAxes variations (splitAxisLocationAndRanges axisLimits).1)
          (splitAxisLocationAndRanges axisLimits).2)) with
    | none => exact Or.inl rfl
    | some v =>
      right
      simpa using hmerged v (List.mem_of_find?_eq_some hfind)

/-- A lookup of a present key succeeds. -/
theorem alookup_isSome_of_mem_keys {κ α : Type} [DecidableEq κ] {k : κ} {l : List (κ × α)}
    (h : k ∈ l.map Prod.fst) : (alookup k l).isSome := by
  induction l with
  | nil => cases h
  | cons p rest ih =>
    rcases List.mem_cons.mp h with h1 | h2
    · simp [alookup, h1.symm]
    · by_cases hp : p.1 = k
      · simp [alookup, hp]
      · simp only [alookup, if_neg hp]
        exact ih h2

/-- An indexed element appears in `enumFrom` at the shifted index. -/
theorem mem_enumFrom_of_getElem? {α : Type} {l : List α} :
    ∀ (i off : ℕ) (a : α), l[i]? = some a → (off + i, a) ∈ l.enumFrom off := by
  induction l with
  | nil =>
    intro i off a h
    simp at h
  | cons x rest ih =>
    intro i off a h
    match i with
    | 0 =>
      simp only [List.getElem?_cons_zero, Option.some_inj] at h
      subst h
      simp [List.enumFrom]
    | j + 1 =>
      simp only [List.getElem?_cons_succ] at h
      have := ih j (off + 1) a h
      simp only [List.enumFrom, List.mem_cons]
      right
      have harith : off + (j + 1) = off + 1 + j := by omega
      rw [harith]
      exact this

/-- An indexed element appears in `enum` with its index. -/
theorem mem_enum_of_getElem? {α : Type} {l : List α} {i : ℕ} {a : α}
    (h : l[i]? = some a) : (i, a) ∈ l.enum := by
  have := mem_enumFrom_of_getElem? i 0 a h
  simpa [List.enum] using this

example (store : ItemVarStore) (axisOrder : List String)
    (axisLimits : List (String × AxisLimit)) :
    (instantiateItemVariationStore store axisOrder axisLimits).1.varData.length
      = store.varData.length := by
  simp only [instantiateItemVariationStore, adapterInstantiate, fromItemVarStore,
    asItemVarStore, pruneRegions, rebuildRegions, List.zip_map', List.map_map,
    List.length_map]

/-- In the flattened VariationIndex map, every in-range
`(major << 16) + minor` key is present. -/
theorem flatten_enum_key_isSome {arr : List (List ℚ)} {major minor : ℕ} {row : List ℚ}
    (hrow : arr[major]? = some row) (hminor : minor < row.length) :
    (alookup (major * 65536 + minor)
      ((arr.enum.map (fun p => p.2.enum.map (fun q => (p.1 * 65536 + q.1, q.2)))).flatten)).isSome := by
  apply alookup_isSome_of_mem_keys
  have h1 : (major, row) ∈ arr.enum := mem_enum_of_getElem? hrow
  have hd : row[minor]? = some row[minor] := List.getElem?_eq_getElem hminor
  have h2 : (minor, row[minor]) ∈ row.enum := mem_enum_of_getElem? hd
  have h3 : (major * 65536 + minor, row[minor])
      ∈ row.enum.map (fun q => (major * 65536 + q.1, q.2)) :=
    List.mem_map_of_mem _ h2
  have h4 : ((major * 65536 + minor, row[minor]) : ℕ × ℚ)
      ∈ (arr.enum.map (fun p => p.2.enum.map (fun q => (p.1 * 65536 + q.1, q.2)))).flatten :=
    List.mem_flatten.mpr ⟨_, List.mem_map_of_mem _ h1, h3⟩
  exact List.mem_map.mpr ⟨_, h4, rfl⟩

/-- The variations `fromItemVarStore` builds for a subtable all carry one
delta per item row. -/
theorem initial_vars_length {regionList : List (List (String × Tent))} {vd : VarData}
    (hlen : vd.item.length = vd.itemCount) :
    ∀ v ∈ ((vd.varRegionIndices.map (fun i => regionList.getD i [])).zip (pyZip vd.item)).map
      (fun rc => TupleVariation.mk rc.1 rc.2),
    v.coordinates.length = vd.itemCount := by
  intro v hv
  obtain ⟨rc, hrc, rfl⟩ := List.mem_map.mp hv
  have hcol : rc.2 ∈ pyZip vd.item := (List.of_mem_zip hrc).2
  rw [show (TupleVariation.mk rc.1 rc.2).coordinates = rc.2 from rfl]
  rw [pyZip_mem_length hcol]
  exact hlen

/-- C5: `instantiateItemVariationStore` preserves the number of data
subtables and each subtable's item count (a subtable whose variations all
vanish is rebuilt as an empty subtable with the same item count, and a
missing residue is replaced by a zero vector of the item count), so every
pre-existing VariationIndex `(major << 16) + minor` remains decodable in the
returned default-delta mapping. -/
theorem instantiateItemVariationStore_preserves (store : ItemVarStore)
    (axisOrder : List String) (axisLimits : List (String × AxisLimit))
    (hwf : ∀ vd ∈ store.varData, vd.item.length = vd.itemCount) :
    ((instantiateItemVariationStore store axisOrder axisLimits).1.varData.length
        = store.varData.length)
    ∧ (∀ i : ℕ, ((instantiateItemVariationStore store axisOrder axisLimits).1.varData[i]?).map
        VarData.itemCount = (store.varData[i]?).map VarData.itemCount)
    ∧ (∀ (major minor : ℕ) (vd : VarData), store.varData[major]? = some vd →
        minor < vd.itemCount →
        (alookup (major * 65536 + minor)
          (instantiateItemVariationStore store axisOrder axisLimits).2).isSome) := by
  refine ⟨?_, ?_, ?_⟩
  · simp only [instantiateItemVariationStore, adapterInstantiate, fromItemVarStore,
      asItemVarStore, pruneRegions, rebuildRegions, List.zip_map', List.map_map,
      List.length_map]
  · intro i
    cases hvd : store.varData[i]? with
    | none =>
      simp only [instantiateItemVariationStore, adapterInstantiate, fromItemVarStore,
        asItemVarStore, pruneRegions, rebuildRegions, List.zip_map', List.map_map,
        List.getElem?_map, hvd, Option.map_none']
    | some vd =>
      have hmem : vd ∈ store.varData := List.getElem?_mem hvd
      have hlen := hwf vd hmem
      have hvars := @store_result_length _ axisLimits _
        (@initial_vars_length store.varRegionList _ hlen)
      simp only [instantiateItemVariationStore, adapterInstantiate, fromItemVarStore,
        asItemVarStore, pruneRegions, rebuildRegions, List.zip_map', List.map_map,
        List.getElem?_map, hvd, Option.map_some', Function.comp_apply]
      cases hres : (instantiateTupleVariationStore
          (List.map (fun rc => ({ axes := rc.1, coordinates := rc.2 } : TupleVariation))
            ((List.map (fun i => store.varRegionList.getD i []) vd.varRegionIndices).zip
              (pyZip vd.item)))
          axisLimits).variations with
      | nil => rfl
      | cons v rest =>
        simp only [Option.some_inj]
        show (pyZip (List.map (fun x => x.coordinates) (v :: rest))).length = vd.itemCount
        rw [List.map_cons]
        apply pyZip_length
        intro r hr
        rw [← List.map_cons] at hr
        obtain ⟨w, hwmem, rfl⟩ := List.mem_map.mp hr
        refine hvars.1 w ?_
        rw [hres]
        exact hwmem
  · intro major minor vd hvd hminor
    have hmem : vd ∈ store.varData := List.getElem?_mem hvd
    have hlen := hwf vd hmem
    have hvars := @store_result_length _ axisLimits _
      (@initial_vars_length store.varRegionList _ hlen)
    simp only [instantiateItemVariationStore, adapterInstantiate, fromItemVarStore,
      List.zip_map', List.map_map]
    apply @flatten_enum_key_isSome (store.varData.map _) major minor _
    · rw [List.getElem?_map, hvd, Option.map_some']
    · simp only [Function.comp_apply]
      split_ifs with hemp
      · simpa using hminor
      · rcases hvars.2 with hnil | hlen2
        · rw [List.isEmpty_iff] at hemp
          exact absurd hnil hemp
        · rw [hlen2]
          exact hminor

/-- Witness for C5 at a concrete one-subtable store with two items, pinned
at wght=1/2: the subtable count and item count survive and VariationIndex
`(0 << 16) + 1` decodes. -/
theorem instantiateItemVariationStore_preserves_witness :
    ((instantiateItemVariationStore
        ⟨[[("wght", ((0 : ℚ), 1, 1))]], [⟨2, [0], [[1], [2]]⟩]⟩ ["wght"]
        [("wght", AxisLimit.pin (1/2))]).1.varData.length = 1)
    ∧ ((((instantiateItemVariationStore
        ⟨[[("wght", ((0 : ℚ), 1, 1))]], [⟨2, [0], [[1], [2]]⟩]⟩ ["wght"]
        [("wght", AxisLimit.pin (1/2))]).1.varData[0]?).map VarData.itemCount) = some 2)
    ∧ (alookup 1 (instantiateItemVariationStore
        ⟨[[("wght", ((0 : ℚ), 1, 1))]], [⟨2, [0], [[1], [2]]⟩]⟩ ["wght"]
        [("wght", AxisLimit.pin (1/2))]).2).isSome := by
  obtain ⟨h1, h2, h3⟩ := instantiateItemVariationStore_preserves
    ⟨[[("wght", ((0 : ℚ), 1, 1))]], [⟨2, [0], [[1], [2]]⟩]⟩ ["wght"]
    [("wght", AxisLimit.pin (1/2))]
    (by
      intro vd hvd
      rw [List.mem_singleton] at hvd
      subst hvd
      rfl)
  refine ⟨h1.trans rfl, (h2 0).trans rfl, ?_⟩
  have h := h3 0 1 ⟨2, [0], [[1], [2]]⟩ rfl (by norm_num)
  simpa using h

/-! ## The avar transformer and invalid segment maps (claim C6) -/

/-- A successful lookup's key-value pair is an entry of the list. -/
theorem alookup_mem {κ α : Type} [DecidableEq κ] {k : κ} {v : α} {l : List (κ × α)}
    (h : alookup k l = some v) : (k, v) ∈ l := by
  induction l with
  | nil => cases h
  | cons p rest ih =>
    by_cases hp : p.1 = k
    · subst hp
      simp only [alookup, if_pos] at h
      obtain rfl := Option.some_inj.mp h
      simp
    · simp only [alookup, if_neg hp] at h
      exact List.mem_cons_of_mem _ (ih h)

/-- Appending an entry with a different key keeps a lookup failing. -/
theorem alookup_append_none {κ α : Type} [DecidableEq κ] {k k' : κ} {v : α}
    {l : List (κ × α)} (h : alookup k l = none) (hk : k' ≠ k) :
    alookup k (l ++ [(k', v)]) = none := by
  induction l with
  | nil => simp [alookup, hk]
  | cons p rest ih =>
    by_cases hp : p.1 = k
    · simp [alookup, hp] at h
    · simp only [alookup, if_neg hp] at h ⊢
      exact ih h

/-- A failed segment-map validation always logs a warning. -/
theorem isValid_false_warning {axisTag : String} {m : List (ℚ × ℚ)}
    (h : (isValidAvarSegmentMap axisTag m).1 = false) :
    (isValidAvarSegmentMap axisTag m).2 ≠ [] := by
  unfold isValidAvarSegmentMap at h ⊢
  split_ifs at h ⊢ <;> first | simp_all | skip
  all_goals split_ifs at h ⊢ <;> simp_all

/-- A valid segment map makes the avar loop body append an entry under the
same axis tag. -/
theorem avarStep_valid_eq {nr : List (String × (ℚ × ℚ))}
    {acc : List (String × List (ℚ × ℚ)) × List String} {seg : String × List (ℚ × ℚ)}
    (hv : (isValidAvarSegmentMap seg.1 seg.2).1 = true) :
    ∃ m, instantiateAvar.avarStep nr acc seg = (acc.1 ++ [(seg.1, m)], acc.2) := by
  unfold instantiateAvar.avarStep
  simp only []
  rw [if_neg (by simpa using hv)]
  split
  · split_ifs with he
    · exact ⟨seg.2, rfl⟩
    · exact ⟨_, rfl⟩
  · exact ⟨seg.2, rfl⟩

/-- An invalid segment map makes the avar loop body drop the segment and log
its warnings. -/
theorem avarStep_invalid_eq {nr : List (String × (ℚ × ℚ))}
    {acc : List (String × List (ℚ × ℚ)) × List String} {seg : String × List (ℚ × ℚ)}
    (hv : (isValidAvarSegmentMap seg.1 seg.2).1 = false) :
    instantiateAvar.avarStep nr acc seg
      = (acc.1, acc.2 ++ (isValidAvarSegmentMap seg.1 seg.2).2) := by
  unfold instantiateAvar.avarStep
  simp only []
  rw [if_pos (by simp [hv])]

/-- The avar loop body never introduces an entry for an axis whose own
segment maps are invalid. -/
theorem avarStep_lookup_none {nr : List (String × (ℚ × ℚ))}
    {acc : List (String × List (ℚ × ℚ)) × List String} {seg : String × List (ℚ × ℚ)}
    {axis : String} (hacc : alookup axis acc.1 = none)
    (hseg : seg.1 = axis → (isValidAvarSegmentMap seg.1 seg.2).1 = false) :
    alookup axis (instantiateAvar.avarStep nr acc seg).1 = none := by
  cases hv : (isValidAvarSegmentMap seg.1 seg.2).1 with
  | false =>
    rw [avarStep_invalid_eq hv]
    exact hacc
  | true =>
    obtain ⟨m, hm⟩ := @avarStep_valid_eq nr acc _ hv
    rw [hm]
    refine alookup_append_none hacc ?_
    intro he
    rw [hseg he] at hv
    cases hv

/-- The avar loop body never discards previously logged warnings. -/
theorem avarStep_warn_mono {nr : List (String × (ℚ × ℚ))}
    {acc : List (String × List (ℚ × ℚ)) × List String} {seg : String × List (ℚ × ℚ)}
    (h : acc.2 ≠ []) : (instantiateAvar.avarStep nr acc seg).2 ≠ [] := by
  cases hv : (isValidAvarSegmentMap seg.1 seg.2).1 with
  | false =>
    rw [avarStep_invalid_eq hv]
    simp only []
    intro hcontra
    exact h (List.append_eq_nil.mp hcontra).1
  | true =>
    obtain ⟨m, hm⟩ := @avarStep_valid_eq nr acc _ hv
    rw [hm]
    exact h

/-- The avar loop body logs a warning when the segment map is invalid. -/
theorem avarStep_warn_invalid {nr : List (String × (ℚ × ℚ))}
    {acc : List (String × List (ℚ × ℚ)) × List String} {seg : String × List (ℚ × ℚ)}
    (h : (isValidAvarSegmentMap seg.1 seg.2).1 = false) :
    (instantiateAvar.avarStep nr acc seg).2 ≠ [] := by
  rw [avarStep_invalid_eq h]
  simp only []
  intro hcontra
  exact isValid_false_warning h (List.append_eq_nil.mp hcontra).2

/-- Over the whole segment loop, an axis all of whose segments are invalid
ends up absent from the new segments. -/
theorem avar_fold_lookup_none {nr : List (String × (ℚ × ℚ))} {axis : String} :
    ∀ (segs : List (String × List (ℚ × ℚ)))
      (acc : List (String × List (ℚ × ℚ)) × List String),
    alookup axis acc.1 = none →
    (∀ seg ∈ segs, seg.1 = axis → (isValidAvarSegmentMap seg.1 seg.2).1 = false) →
    alookup axis (segs.foldl (instantiateAvar.avarStep nr) acc).1 = none := by
  intro segs
  induction segs with
  | nil =>
    intro acc hacc _
    exact hacc
  | cons seg rest ih =>
    intro acc hacc hsegs
    rw [List.foldl_cons]
    refine ih _ ?_ (fun q hq => hsegs q (List.mem_cons_of_mem _ hq))
    exact avarStep_lookup_none hacc (hsegs seg (List.mem_cons_self _ _))

/-- The segment loop ends with a nonempty warning list whenever some segment
is invalid (or a warning was already logged). -/
theorem avar_fold_warn {nr : List (String × (ℚ × ℚ))} :
    ∀ (segs : List (String × List (ℚ × ℚ)))
      (acc : List (String × List (ℚ × ℚ)) × List String),
    ((∃ seg ∈ segs, (isValidAvarSegmentMap seg.1 seg.2).1 = false) ∨ acc.2 ≠ []) →
    (segs.foldl (instantiateAvar.avarStep nr) acc).2 ≠ [] := by
  intro segs
  induction segs with
  | nil =>
    intro acc h
    rcases h with ⟨seg, hm, -⟩ | h
    · cases hm
    · exact h
  | cons seg rest ih =>
    intro acc h
    rw [List.foldl_cons]
    rcases h with ⟨q, hq, hqinv⟩ | hacc
    · rcases List.mem_cons.mp hq with rfl | hq2
      · exact ih _ (Or.inr (avarStep_warn_invalid hqinv))
      · exact ih _ (Or.inl ⟨q, hq2, hqinv⟩)
    · exact ih _ (Or.inr (avarStep_warn_mono hacc))

/-- `instantiateAvar` reduces to the segment fold once the split and the
normalization succeed and not all mapped axes are pinned. -/
theorem instantiateAvar_reduces (fvarAxes : List FvarAxis)
    (avarSegments : List (String × List (ℚ × ℚ)))
    (axisLimits : List (String × AxisLimit))
    (loc : List (String × ℚ)) (rng : List (String × (ℚ × ℚ)))
    (nl : List (String × AxisLimit))
    (hsplit : splitAxisLocationAndRangesChecked axisLimits = .ok (loc, rng))
    (hnall : ¬ (avarSegments.all (fun seg => (loc.map Prod.fst).contains seg.1)))
    (hnorm : normalizeAxisLimits fvarAxes none
      (rng.map (fun p => (p.1, AxisLimit.range p.2.1 p.2.2))) false = .ok nl) :
    instantiateAvar fvarAxes avarSegments axisLimits =
      (let segments := avarSegments.filter (fun seg => ¬ (loc.map Prod.fst).contains seg.1)
       let nr := nl.filterMap (fun p => match p.2 with
         | .range lo hi => some (p.1, (lo, hi))
         | .pin _ => none)
       let result := segments.foldl (instantiateAvar.avarStep nr) ([], [])
       .ok (some result.1, result.2)) := by
  unfold instantiateAvar
  rw [hsplit]
  simp only [Except.bind, bind, if_neg hnall, hnorm]
  rfl

/-- C6 as amended: for every axis whose avar segment map fails validation
(missing anchor or non-monotonic), `instantiateAvar` emits a warning and
*omits* that axis from the output avar segments (the table itself is kept);
the claim's \"preserved unchanged\" does not hold. -/
theorem instantiateAvar_invalid_dropped (fvarAxes : List FvarAxis)
    (avarSegments : List (String × List (ℚ × ℚ)))
    (axisLimits : List (String × AxisLimit)) (axis : String) (m : List (ℚ × ℚ))
    (loc : List (String × ℚ)) (rng : List (String × (ℚ × ℚ)))
    (nl : List (String × AxisLimit))
    (hnd : (avarSegments.map Prod.fst).Nodup)
    (hseg : alookup axis avarSegments = some m)
    (hinvalid : (isValidAvarSegmentMap axis m).1 = false)
    (hsplit : splitAxisLocationAndRangesChecked axisLimits = .ok (loc, rng))
    (hnp : ¬ (loc.map Prod.fst).contains axis)
    (hnall : ¬ (avarSegments.all (fun seg => (loc.map Prod.fst).contains seg.1)))
    (hnorm : normalizeAxisLimits fvarAxes none
      (rng.map (fun p => (p.1, AxisLimit.range p.2.1 p.2.2))) false = .ok nl) :
    ∃ out w, instantiateAvar fvarAxes avarSegments axisLimits = .ok (some out, w)
      ∧ alookup axis out = none ∧ w ≠ [] := by
  have hcomp := instantiateAvar_reduces fvarAxes avarSegments axisLimits loc rng nl
    hsplit hnall hnorm
  refine ⟨_, _, hcomp, ?_, ?_⟩
  · apply avar_fold_lookup_none
    · rfl
    intro seg hsegmem he
    have hsegmem' := List.mem_of_mem_filter hsegmem
    have hl : alookup seg.1 avarSegments = some seg.2 := alookup_eq_of_mem_nodup hnd hsegmem'
    rw [he] at hl
    rw [hseg] at hl
    obtain rfl := Option.some_inj.mp hl
    rw [he]
    exact hinvalid
  · apply avar_fold_warn
    left
    refine ⟨(axis, m), ?_, hinvalid⟩
    refine List.mem_filter.mpr ⟨alookup_mem hseg, ?_⟩
    simpa using hnp

/-- C6 counterexample: the wght map `{-1: -1, 0: 0}` (missing the `(1, 1)`
anchor) is invalid; `instantiateAvar` returns an *empty* segment dict plus
the warning, rather than preserving the map unchanged. -/
theorem instantiateAvar_dropped_counterexample :
    instantiateAvar [⟨"wght", 100, 400, 900, 256⟩]
        [("wght", [((-1 : ℚ), (-1 : ℚ)), (0, 0)])] [] =
      .ok (some [],
        ["Invalid avar SegmentMap record for axis wght: does not include all required value maps"])
    ∧ ([] : List (String × List (ℚ × ℚ))) ≠ [("wght", [((-1 : ℚ), (-1 : ℚ)), (0, 0)])] := by
  constructor
  · rfl
  · simp

/-- Witness for the amended C6 at the concrete invalid input. -/
theorem instantiateAvar_invalid_dropped_witness :
    ∃ out w, instantiateAvar [⟨"wght", 100, 400, 900, 256⟩]
        [("wght", [((-1 : ℚ), (-1 : ℚ)), (0, 0)])] [] = .ok (some out, w)
      ∧ alookup "wght" out = none ∧ w ≠ [] :=
  instantiateAvar_invalid_dropped [⟨"wght", 100, 400, 900, 256⟩]
    [("wght", [((-1 : ℚ), (-1 : ℚ)), (0, 0)])] [] "wght"
    [((-1 : ℚ), (-1 : ℚ)), (0, 0)] [] [] []
    (by simp) rfl rfl rfl (by simp) (by simp) rfl

theorem processConditions_applies {location : List (String × ℚ)} {fvarTags : List String}
    {axisIndexMap : List (String × ℕ)} (conds : List ConditionTable)
    (hidx : ∀ c ∈ conds, c.axisIndex < fvarTags.length) :
    (processConditions location fvarTags axisIndexMap conds).1
      = conds.all (fun c =>
          c.format = 1 &&
          match fvarTags[c.axisIndex]? with
          | some tag =>
            match alookup tag location with
            | some v => decide (c.filterRangeMinValue ≤ v ∧ v ≤ c.filterRangeMaxValue)
            | none => false
          | none => false) := by
  induction conds with
  | nil => rfl
  | cons c rest ih =>
    have hc := hidx c (List.mem_cons_self _ _)
    have hget : fvarTags[c.axisIndex]? = some (fvarTags.getD c.axisIndex "") := by
      rw [List.getD_eq_getElem?_getD]
      rw [List.getElem?_eq_getElem hc]
      rfl
    rw [List.all_cons]
    unfold processConditions
    by_cases hfmt : c.format = 1
    · rw [if_pos hfmt]
      cases hloc : alookup (fvarTags.getD c.axisIndex "") location with
      | some v =>
        simp only [hget, hloc]
        by_cases hrange : c.filterRangeMinValue ≤ v ∧ v ≤ c.filterRangeMaxValue
        · rw [if_pos hrange, ih (fun q hq => hidx q (List.mem_cons_of_mem _ hq))]
          simp [hfmt, hrange]
        · rw [if_neg hrange]
          simp [hfmt, hrange]
      | none =>
        simp only [hget, hloc]
        simp [hfmt]
    · rw [if_neg hfmt]
      simp [hfmt]


lemma instRec_applies (rec : FeatureVariationRecord) (location : List (String × ℚ))
    (fvarTags : List String) (axisIndexMap : List (String × ℕ)) :
    (instantiateFeatureVariationRecord rec location fvarTags axisIndexMap).applies
      = (processConditions location fvarTags axisIndexMap rec.conditions).1 := by
  unfold instantiateFeatureVariationRecord
  simp only []
  split <;> rfl

lemma fvStep_flag (location : List (String × ℚ)) (axisRanges : List (String × (ℚ × ℚ)))
    (fvarTags : List String) (axisIndexMap : List (String × ℕ))
    (st : FVState) (rec : FeatureVariationRecord) :
    (fvStep location axisRanges fvarTags axisIndexMap st rec).featureVariationApplied
      = (st.featureVariationApplied
          || (instantiateFeatureVariationRecord rec location fvarTags axisIndexMap).applies) := by
  simp [fvStep]

lemma fvStep_featureList (location : List (String × ℚ)) (axisRanges : List (String × (ℚ × ℚ)))
    (fvarTags : List String) (axisIndexMap : List (String × ℕ))
    (st : FVState) (rec : FeatureVariationRecord) :
    (fvStep location axisRanges fvarTags axisIndexMap st rec).featureList
      = if (instantiateFeatureVariationRecord rec location fvarTags axisIndexMap).applies
            ∧ ¬ st.featureVariationApplied
        then applySubstitutions rec.substitutions st.featureList
        else st.featureList := by
  simp [fvStep]

lemma fold_applied (location : List (String × ℚ)) (axisRanges : List (String × (ℚ × ℚ)))
    (fvarTags : List String) (axisIndexMap : List (String × ℕ)) :
    ∀ (records : List FeatureVariationRecord) (st : FVState),
      st.featureVariationApplied = true →
      (records.foldl (fvStep location axisRanges fvarTags axisIndexMap) st).featureList
        = st.featureList := by
  intro records
  induction records with
  | nil => intro st _; rfl
  | cons q qs ih =>
    intro st h
    rw [List.foldl_cons]
    have hflag : (fvStep location axisRanges fvarTags axisIndexMap st q).featureVariationApplied
        = true := by rw [fvStep_flag, h]; rfl
    rw [ih _ hflag, fvStep_featureList, if_neg]
    intro hc
    exact hc.2 h

lemma fold_find (location : List (String × ℚ)) (axisRanges : List (String × (ℚ × ℚ)))
    (fvarTags : List String) (axisIndexMap : List (String × ℕ)) :
    ∀ (records : List FeatureVariationRecord),
      (∀ rec ∈ records, ∀ c ∈ rec.conditions, c.axisIndex < fvarTags.length) →
      ∀ st : FVState, st.featureVariationApplied = false →
      (records.foldl (fvStep location axisRanges fvarTags axisIndexMap) st).featureList
        = match records.find? (recordApplies location fvarTags) with
          | some r => applySubstitutions r.substitutions st.featureList
          | none => st.featureList := by
  intro records
  induction records with
  | nil => intro _ st _; rfl
  | cons q qs ih =>
    intro hidx st hst
    have happ : (instantiateFeatureVariationRecord q location fvarTags axisIndexMap).applies
        = recordApplies location fvarTags q := by
      rw [instRec_applies,
        processConditions_applies q.conditions (fun c hc => hidx q (List.mem_cons_self _ _) c hc)]
      rfl
    rw [List.foldl_cons]
    by_cases hq : recordApplies location fvarTags q = true
    · have hflag : (fvStep location axisRanges fvarTags axisIndexMap st q).featureVariationApplied
          = true := by rw [fvStep_flag, happ, hq, Bool.or_true]
      rw [fold_applied location axisRanges fvarTags axisIndexMap qs _ hflag,
        fvStep_featureList, List.find?_cons_of_pos _ hq, if_pos]
      exact ⟨by rw [happ]; exact hq, by rw [hst]; exact Bool.false_ne_true⟩
    · have hqf : recordApplies location fvarTags q = false := by
        cases hb : recordApplies location fvarTags q
        · rfl
        · exact absurd hb hq
      have hflag : (fvStep location axisRanges fvarTags axisIndexMap st q).featureVariationApplied
          = false := by rw [fvStep_flag, happ, hqf, hst]; rfl
      rw [ih (fun r hr c hc => hidx r (List.mem_cons_of_mem _ hr) c hc) _ hflag,
        List.find?_cons_of_neg _ (by rw [hqf]; exact Bool.false_ne_true)]
      have hfl : (fvStep location axisRanges fvarTags axisIndexMap st q).featureList
          = st.featureList := by
        rw [fvStep_featureList, if_neg]
        intro hc
        rw [happ, hqf] at hc
        exact Bool.false_ne_true hc.1
      rw [hfl]

lemma limitFVR_keep_conditions (rec : FeatureVariationRecord)
    (axisRanges : List (String × (ℚ × ℚ))) (fvarTags : List String)
    (h : (limitFeatureVariationRecord rec axisRanges fvarTags).1 = true) :
    (limitFeatureVariationRecord rec axisRanges fvarTags).2.conditions ≠ [] := by
  cases hp : processLimitConditions axisRanges fvarTags rec.conditions with
  | none => simp [limitFeatureVariationRecord, hp] at h
  | some l =>
    cases l with
    | nil => simp [limitFeatureVariationRecord, hp] at h
    | cons c cs => simp [limitFeatureVariationRecord, hp]

lemma fvStep_newRecords_mem (location : List (String × ℚ)) (axisRanges : List (String × (ℚ × ℚ)))
    (fvarTags : List String) (axisIndexMap : List (String × ℕ))
    (st : FVState) (rec : FeatureVariationRecord) (r : FeatureVariationRecord)
    (hr : r ∈ (fvStep location axisRanges fvarTags axisIndexMap st rec).newRecords) :
    r ∈ st.newRecords ∨ r.conditions ≠ [] := by
  by_cases hk : (instantiateFeatureVariationRecord rec location fvarTags axisIndexMap).shouldKeep
  · by_cases hl : (limitFeatureVariationRecord
        (instantiateFeatureVariationRecord rec location fvarTags axisIndexMap).record
        axisRanges fvarTags).1
    · by_cases hu : (featureVariationRecordIsUnique
          (limitFeatureVariationRecord
            (instantiateFeatureVariationRecord rec location fvarTags axisIndexMap).record
            axisRanges fvarTags).2 st.uniqueRecords).1
      · simp [fvStep, hk, hl, hu] at hr
        rcases hr with h1 | h1
        · exact Or.inl h1
        · subst h1
          exact Or.inr (limitFVR_keep_conditions _ _ _ hl)
      · simp [fvStep, hk, hl, hu] at hr
        exact Or.inl hr
    · simp [fvStep, hk, hl] at hr
      exact Or.inl hr
  · simp [fvStep, hk] at hr
    exact Or.inl hr

lemma fold_newRecords (location : List (String × ℚ)) (axisRanges : List (String × (ℚ × ℚ)))
    (fvarTags : List String) (axisIndexMap : List (String × ℕ)) :
    ∀ (records : List FeatureVariationRecord) (st : FVState),
      (∀ r ∈ st.newRecords, r.conditions ≠ []) →
      ∀ r ∈ (records.foldl (fvStep location axisRanges fvarTags axisIndexMap) st).newRecords,
        r.conditions ≠ [] := by
  intro records
  induction records with
  | nil => intro st h; exact h
  | cons q qs ih =>
    intro st h
    rw [List.foldl_cons]
    apply ih
    intro r hr
    rcases fvStep_newRecords_mem location axisRanges fvarTags axisIndexMap st q r hr with h1 | h1
    · exact h r h1
    · exact h1

/-- C7: over `_instantiateFeatureVariations`, at most one record has its
substitutions applied to the feature list — exactly the first record in order
whose every condition is a format-1 condition on a pinned axis with the pinned
coordinate inside its filter range (the `find?` of `recordApplies`); and every
record surviving in the output FeatureVariations has a non-empty condition
set, so a record whose condition set becomes empty is dropped. -/
theorem featureVariations_apply_first (featureList : List ℕ)
    (records : List FeatureVariationRecord) (fvarTags : List String)
    (axisLimits : List (String × AxisLimit))
    (hidx : ∀ rec ∈ records, ∀ c ∈ rec.conditions, c.axisIndex < fvarTags.length) :
    (instantiateFeatureVariationsCore featureList records fvarTags axisLimits).1
      = (match records.find?
            (recordApplies (splitAxisLocationAndRanges axisLimits).1 fvarTags) with
        | some r => applySubstitutions r.substitutions featureList
        | none => featureList)
    ∧ ∀ recs, (instantiateFeatureVariationsCore featureList records fvarTags axisLimits).2.1
        = some recs → ∀ r ∈ recs, r.conditions ≠ [] := by
  constructor
  · unfold instantiateFeatureVariationsCore
    simp only []
    exact fold_find _ _ _ _ records hidx _ rfl
  · intro recs hrecs r hr
    unfold instantiateFeatureVariationsCore at hrecs
    simp only [] at hrecs
    split at hrecs
    · exact absurd hrecs (by simp)
    · cases hrecs
      exact fold_newRecords _ _ _ _ records _ (by intro r hr; cases hr) r hr

/-- Witness for C7 at a concrete input: two records both satisfied at the
pinned location; only the first record substitutions reach the feature list,
and no record survives. -/
theorem featureVariations_apply_first_witness :
    (instantiateFeatureVariationsCore [10, 20]
        [⟨[⟨1, 0, 0, 1⟩], 65536, [(0, 5)]⟩, ⟨[⟨1, 0, 0, 1⟩], 65536, [(1, 7)]⟩]
        ["wght"] [("wght", AxisLimit.pin 0)]).1 = [5, 20]
    ∧ (instantiateFeatureVariationsCore [10, 20]
        [⟨[⟨1, 0, 0, 1⟩], 65536, [(0, 5)]⟩, ⟨[⟨1, 0, 0, 1⟩], 65536, [(1, 7)]⟩]
        ["wght"] [("wght", AxisLimit.pin 0)]).2.1 = none := by
  have h := featureVariations_apply_first [10, 20]
    [⟨[⟨1, 0, 0, 1⟩], 65536, [(0, 5)]⟩, ⟨[⟨1, 0, 0, 1⟩], 65536, [(1, 7)]⟩]
    ["wght"] [("wght", AxisLimit.pin 0)] (by decide)
  exact ⟨h.1.trans (by rfl), by rfl⟩


lemma except_ok_bind {ε α β : Type} (a : α) (k : α → Except ε β) :
    (Except.ok a : Except ε α) >>= k = k a := rfl

lemma except_error_bind {ε α β : Type} (e : ε) (k : α → Except ε β) :
    (Except.error e : Except ε α) >>= k = Except.error e := rfl

lemma mapM_keys (f : (String × Option AxisLimit) → Except PyError (String × AxisLimit))
    (hf : ∀ p b, f p = .ok b → b.1 = p.1) :
    ∀ (ls : List (String × Option AxisLimit)) (l2 : List (String × AxisLimit)),
      ls.mapM f = .ok l2 → l2.map Prod.fst = ls.map Prod.fst := by
  intro ls
  induction ls with
  | nil =>
    intro l2 h
    have h2 : (Except.ok [] : Except PyError (List (String × AxisLimit)))
        = Except.ok l2 := h
    cases h2
    rfl
  | cons p ps ih =>
    intro l2 h
    rw [List.mapM_cons] at h
    rcases hfp : f p with e | b
    · simp only [hfp, except_error_bind] at h
      cases h
    · simp only [hfp, except_ok_bind] at h
      rcases htail : ps.mapM f with e | bs
      · simp only [htail, except_error_bind] at h
        cases h
      · simp only [htail, except_ok_bind] at h
        have h2 : (Except.ok (b :: bs) : Except PyError (List (String × AxisLimit)))
            = Except.ok l2 := h
        cases h2
        simp only [List.map_cons]
        rw [ih bs htail, hf p b hfp]

lemma filterMap_keys (ls : List (String × Option AxisLimit))
    (h : ∀ p ∈ ls, p.2.isSome) :
    (ls.filterMap (fun p => p.2.map (fun v => (p.1, v)))).map Prod.fst
      = ls.map Prod.fst := by
  induction ls with
  | nil => rfl
  | cons p ps ih =>
    rcases hp : p.2 with _ | v
    · have := h p (List.mem_cons_self _ _)
      rw [hp] at this
      cases this
    · rw [List.filterMap_cons]
      simp only [hp, Option.map_some']
      rw [List.map_cons, List.map_cons,
        ih (fun q hq => h q (List.mem_cons_of_mem _ hq))]

lemma populateAxisDefaults_keys (fvarAxes : List FvarAxis)
    (ls : List (String × Option AxisLimit)) (l2 : List (String × AxisLimit))
    (h : populateAxisDefaults fvarAxes ls = .ok l2) :
    l2.map Prod.fst = ls.map Prod.fst := by
  unfold populateAxisDefaults at h
  split at h
  · refine mapM_keys _ ?_ ls l2 h
    intro p b hb
    rcases hp : p.2 with _ | v
    · simp only [hp] at hb
      rcases hd : alookup p.1 (fvarAxes.map (fun a => (a.axisTag, a.defaultValue)))
          with _ | d
      · simp only [hd] at hb
        cases hb
      · simp only [hd] at hb
        cases hb
        rfl
    · simp only [hp] at hb
      cases hb
      rfl
  · rename_i hnone
    injection h with h
    subst h
    apply filterMap_keys
    intro p hp
    rcases hp2 : p.2 with _ | v
    · exfalso
      apply hnone
      rw [List.any_eq_true]
      exact ⟨p, hp, by rw [hp2]; rfl⟩
    · rfl

lemma normalizeAxisLimits_bad (fvarAxes : List FvarAxis)
    (avar : Option (List (String × List (ℚ × ℚ))))
    (ls : List (String × AxisLimit)) (ua : Bool) (tag : String)
    (htag : tag ∈ ls.map Prod.fst)
    (hbad : ¬ (fvarAxes.map (·.axisTag)).contains tag) :
    ∃ msg, normalizeAxisLimits fvarAxes avar ls ua = .error (.valueError msg) := by
  unfold normalizeAxisLimits
  simp only []
  rw [if_pos]
  · exact ⟨_, rfl⟩
  · intro hempty
    have hmem : tag ∈ (ls.map Prod.fst).filter
        (fun t => ¬ (fvarAxes.map (·.axisTag)).contains t) :=
      List.mem_filter.mpr ⟨htag, by simpa using hbad⟩
    rw [List.isEmpty_iff] at hempty
    rw [hempty] at hmem
    cases hmem

/-- C8 counterexample: an axis tag absent from fvar whose limit value is
`None` reaches `populateAxisDefaults`, whose dict lookup raises a `KeyError`,
not the `ValueError` the claim promises. -/
theorem instantiateVariableFont_keyError_counterexample :
    instantiateVariableFont
      ⟨some ⟨[⟨"wght", 0, 0, 1, 256⟩], []⟩, none, [], none, none, [], false⟩
      [("ZZZZ", none)] false false false = .error (.keyError "ZZZZ")
    ∧ ∀ msg, PyError.keyError "ZZZZ" ≠ PyError.valueError msg := by
  constructor
  · rfl
  · intro msg h
    cases h

/-- C8 as amended: with fvar present and no CFF2 table, an axis tag in the
limits but absent from fvar always makes `instantiateVariableFont` raise
(value semantics: no font is returned, hence no partial output); when every
limit carries a value (no `None` defaults to populate), the raised error is
the descriptive `ValueError` of `normalizeAxisLimits`, while a `None`-valued
unknown tag surfaces as a `KeyError` from `populateAxisDefaults`. -/
theorem instantiateVariableFont_unknown_tag_error (varfont : Font)
    (axisLimits : List (String × Option AxisLimit)) (inplace optimize overlap : Bool)
    (f : FvarTable) (tag : String)
    (hfvar : varfont.fvar = some f) (hcff : varfont.cff2 = false)
    (htag : tag ∈ axisLimits.map Prod.fst)
    (hbad : ¬ (f.axes.map (·.axisTag)).contains tag) :
    (∃ e, instantiateVariableFont varfont axisLimits inplace optimize overlap = .error e)
    ∧ ((∀ p ∈ axisLimits, p.2.isSome) →
        ∃ msg, instantiateVariableFont varfont axisLimits inplace optimize overlap
          = .error (.valueError msg)) := by
  have hsan : sanityCheckVariableTables varfont = .ok () := by
    unfold sanityCheckVariableTables
    rw [hfvar, hcff]
    rfl
  constructor
  · rcases hpop : populateAxisDefaults f.axes axisLimits with e | ls2
    · refine ⟨e, ?_⟩
      simp only [instantiateVariableFont, hsan, hfvar, Option.getD_some, hpop,
        except_ok_bind, except_error_bind]
    · obtain ⟨msg, hnorm⟩ := normalizeAxisLimits_bad f.axes varfont.avar ls2 true tag
        (by rw [populateAxisDefaults_keys f.axes axisLimits ls2 hpop]; exact htag) hbad
      refine ⟨.valueError msg, ?_⟩
      simp only [instantiateVariableFont, hsan, hfvar, Option.getD_some, hpop,
        except_ok_bind, hnorm, except_error_bind]
  · intro hall
    have hnone : ¬ (axisLimits.any fun p => p.2.isNone) = true := by
      intro hc
      rw [List.any_eq_true] at hc
      obtain ⟨p, hp, hpn⟩ := hc
      have hs := hall p hp
      rw [Option.isNone_iff_eq_none] at hpn
      rw [hpn] at hs
      cases hs
    have hpop : populateAxisDefaults f.axes axisLimits
        = .ok (axisLimits.filterMap (fun p => p.2.map (fun v => (p.1, v)))) := by
      unfold populateAxisDefaults
      rw [if_neg hnone]
    obtain ⟨msg, hnorm⟩ := normalizeAxisLimits_bad f.axes varfont.avar
      (axisLimits.filterMap (fun p => p.2.map (fun v => (p.1, v)))) true tag
      (by rw [filterMap_keys axisLimits hall]; exact htag) hbad
    refine ⟨msg, ?_⟩
    simp only [instantiateVariableFont, hsan, hfvar, Option.getD_some, hpop,
      except_ok_bind, hnorm, except_error_bind]

/-- Witness for the amended C8 theorem at a concrete input: an unknown tag
whose limit carries a value yields the descriptive `ValueError`. -/
theorem instantiateVariableFont_unknown_tag_error_witness :
    ∃ msg, instantiateVariableFont
      ⟨some ⟨[⟨"wght", 0, 0, 1, 256⟩], []⟩, none, [], none, none, [], false⟩
      [("ZZZZ", some (AxisLimit.pin 0))] false false false
      = .error (.valueError msg) :=
  (instantiateVariableFont_unknown_tag_error _ _ false false false
    ⟨[⟨"wght", 0, 0, 1, 256⟩], []⟩ "ZZZZ" rfl rfl (by decide) (by decide)).2
    (by decide)


/-- C9: for a CLI limit string matching `TAG=a:b`, `parseLimits` maps the
padded tag to a single pinned coordinate when the two bounds parse (through
16-bit fixed-point quantization) to the same value; an `AxisRange` is
produced only when the parsed bounds differ (an inverted range is rejected);
and a `TAG=drop` string maps the tag to `None`. -/
theorem parseLimits_pin_range_drop (s : String) (tag g3 g4 : List Char) (v w : ℚ)
    (hm : matchLimit s.data = some (tag, some (g3, some g4)))
    (hv : strToFixedToFloat g3 16 = some v)
    (hw : strToFixedToFloat g4 16 = some w) :
    parseLimits [s]
      = (if v = w then .ok [(ljust4 tag, some (AxisLimit.pin v))]
         else if v > w then .error (.valueError "Range minimum must be <= maximum")
         else .ok [(ljust4 tag, some (AxisLimit.range v w))])
    ∧ ∀ (t : String) (tg : List Char), matchLimit t.data = some (tg, none) →
        parseLimits [t] = .ok [(ljust4 tg, none)] := by
  constructor
  · unfold parseLimits
    simp only [List.foldlM_cons, List.foldlM_nil, hm, hv, hw]
    by_cases hvw : v = w
    · simp [hvw, setKey]
    · by_cases hgt : v > w
      · simp [hvw, hgt, setKey]
      · simp [hvw, hgt, setKey]
  · intro t tg hmt
    unfold parseLimits
    simp only [List.foldlM_cons, List.foldlM_nil, hmt]
    simp [setKey]

/-- Witness for C9 at concrete inputs: `wght=1:1` pins at 1 (both bounds
quantize to the same value, so no `AxisRange` is built) and `wght=drop`
maps the tag to `None`. -/
theorem parseLimits_pin_range_drop_witness :
    parseLimits ["wght=1:1"] = .ok [("wght", some (AxisLimit.pin 1))]
    ∧ parseLimits ["wght=drop"] = .ok [("wght", none)] := by
  have hv : strToFixedToFloat "1".data 16 = some 1 := by
    have h1 : parseFloat "1".data = some ((1 : ℚ) * ((1 : ℕ) : ℚ)) := rfl
    unfold strToFixedToFloat
    rw [h1]
    simp only [Option.map_some']
    norm_num [floatToFixedToFloat, otRound]
  have h := parseLimits_pin_range_drop "wght=1:1" "wght".data "1".data "1".data 1 1
    rfl hv hv
  refine ⟨?_, h.2 "wght=drop" "wght".data rfl⟩
  rw [h.1]
  simp [ljust4]

end Instancer
